import Mathlib

/-!
# SlowSoftI2CMaster: a bit-banged I2C master

A shallow embedding of `SlowSoftI2CMaster.cpp`.  The member functions are
state transformers over `State`: the two tracked line states of the object,
the positions reached in the platform's input streams and the trace of the
calls made so far.  Every loop of the source is a recursive function on a fuel
argument that bounds the number of times its condition is tested; a run that
exhausts the fuel yields `none` together with the state it reached.
-/

namespace SlowSoftI2CMaster

/-! ## Platform vocabulary -/

/-- Logic level of a line: the Arduino constants `LOW` (0) and `HIGH` (1). -/
inductive Level where
  | LOW
  | HIGH
  deriving DecidableEq, Repr

/-- Pin direction, the second argument of `pinMode`. -/
inductive Mode where
  | INPUT
  | OUTPUT
  deriving DecidableEq, Repr

/-- The pin a platform call is applied to: the member `_sda` or the member
`_scl` of the object.  The constructor binds both to pin numbers, which no
member function ever computes with. -/
inductive Pin where
  | _sda
  | _scl
  deriving DecidableEq, Repr

/-- One entry of the trace: a platform call (with the value it returned, for
`digitalRead` and `millis`), or the return of `ClockStretch` with its value. -/
inductive Event where
  | pinMode (pin : Pin) (mode : Mode)
  | digitalWrite (pin : Pin) (val : Level)
  | digitalRead (pin : Pin) (val : Level)
  | delayMicroseconds (us : Nat)
  | delay (ms : Nat)
  | millis (val : Nat)
  | ClockStretch (timeout : Bool)
  deriving DecidableEq, Repr

/-- What the code takes from outside.  `DELAY` is the constant of the header
`SlowSoftI2CMaster.h`, which is not part of the sources at hand, so it is a
parameter.  `sda k` and `scl k` are the levels returned by the `k`-th
`digitalRead` of the respective pin, and `clock k` is the counter value behind
the `k`-th call of `millis` (reduced modulo `2^32`, the width of
`unsigned long` on the target). -/
structure Platform where
  DELAY : Nat
  sda : Nat → Level
  scl : Nat → Level
  clock : Nat → Nat

/-- Modelled from the spec: the members `_sda_set` and `_scl_set` are declared
in the header, which is not part of the sources at hand; following the data
model of the spec ("Line State: one of RELEASED, DRIVEN per line") they hold a
`Level`.  The remaining fields are the numbers of `digitalRead(_sda)`,
`digitalRead(_scl)` and `millis()` calls made so far and the trace of all
calls, oldest first. -/
structure State where
  _sda_set : Level
  _scl_set : Level
  sdaReads : Nat
  sclReads : Nat
  clockReads : Nat
  trace : List Event
  deriving DecidableEq, Repr

/-! ## Platform primitives -/

/-- Append one entry to the trace. -/
def emit (e : Event) (s : State) : State :=
  { s with trace := s.trace ++ [e] }

/-- Platform call `pinMode(pin, mode)`. -/
def pinMode (pin : Pin) (mode : Mode) (s : State) : State :=
  emit (Event.pinMode pin mode) s

/-- Platform call `digitalWrite(pin, val)`. -/
def digitalWrite (pin : Pin) (val : Level) (s : State) : State :=
  emit (Event.digitalWrite pin val) s

/-- Platform call `delayMicroseconds(us)`. -/
def delayMicroseconds (us : Nat) (s : State) : State :=
  emit (Event.delayMicroseconds us) s

/-- Platform call `delay(ms)`. -/
def delay (ms : Nat) (s : State) : State :=
  emit (Event.delay ms) s

/-- Platform call `digitalRead(pin)`: the next level of the pin's input
stream. -/
def digitalRead (env : Platform) (pin : Pin) (s : State) : Level × State :=
  match pin with
  | Pin._sda =>
    (env.sda s.sdaReads,
      emit (Event.digitalRead Pin._sda (env.sda s.sdaReads))
        { s with sdaReads := s.sdaReads + 1 })
  | Pin._scl =>
    (env.scl s.sclReads,
      emit (Event.digitalRead Pin._scl (env.scl s.sclReads))
        { s with sclReads := s.sclReads + 1 })

/-- Platform call `millis()`: the next clock reading, an `unsigned long`. -/
def millis (env : Platform) (s : State) : Nat × State :=
  (env.clock s.clockReads % 2 ^ 32,
    emit (Event.millis (env.clock s.clockReads % 2 ^ 32))
      { s with clockReads := s.clockReads + 1 })

/-! ## The line macros -/

/-- Macro `SET_SDA_LOW()`: `pinMode(_sda, OUTPUT); _sda_set = LOW;`. -/
def SET_SDA_LOW (s : State) : State :=
  { pinMode Pin._sda Mode.OUTPUT s with _sda_set := Level.LOW }

/-- Macro `SET_SCL_LOW()`: `pinMode(_scl, OUTPUT); _scl_set = LOW;`. -/
def SET_SCL_LOW (s : State) : State :=
  { pinMode Pin._scl Mode.OUTPUT s with _scl_set := Level.LOW }

/-- Macro `SET_SDA_HIGH()`: `pinMode(_sda, INPUT); _sda_set = HIGH;`. -/
def SET_SDA_HIGH (s : State) : State :=
  { pinMode Pin._sda Mode.INPUT s with _sda_set := Level.HIGH }

/-- Macro `SET_SCL_HIGH()`: `pinMode(_scl, INPUT); _scl_set = HIGH;`. -/
def SET_SCL_HIGH (s : State) : State :=
  { pinMode Pin._scl Mode.INPUT s with _scl_set := Level.HIGH }

/-! ## ClockStretch -/

/-- The `while (digitalRead(_scl) == LOW)` loop of `ClockStretch`.  The result
is `some true` for `return 1`, `some false` for `return 0` and `none` when the
fuel is used up while SCL still reads low. -/
def ClockStretch_loop (env : Platform) (milliSeconds milli3000 : Nat) :
    Nat → State → Option Bool × State
  | 0, s => (none, s)
  | fuel + 1, s =>
    match digitalRead env Pin._scl s with
    | (Level.LOW, s1) =>
      match millis env s1 with
      | (now1, s2) =>
        if milliSeconds > now1 then
          ClockStretch_loop env milliSeconds milli3000 fuel s2
        else
          match millis env s2 with
          | (now2, s3) =>
            if milli3000 > now2 then
              ClockStretch_loop env milliSeconds milli3000 fuel (delay 1 s3)
            else
              (some true, emit (Event.ClockStretch true) s3)
    | (Level.HIGH, s1) => (some false, emit (Event.ClockStretch false) s1)

/-- Function `ClockStretch()`: both deadlines are `unsigned long`, so the sums
wrap modulo `2^32`. -/
def ClockStretch (env : Platform) (fuel : Nat) (s : State) : Option Bool × State :=
  match millis env s with
  | (now0, s1) =>
    ClockStretch_loop env ((2 + now0) % 2 ^ 32) ((3000 + (2 + now0) % 2 ^ 32) % 2 ^ 32) fuel s1

/-! ## Stop -/

/-- Function `i2c_stop()`. -/
def i2c_stop (env : Platform) (s : State) : State :=
  let s1 :=
    if s._sda_set = Level.HIGH then
      let s2 :=
        if s._scl_set = Level.HIGH then
          delayMicroseconds env.DELAY (SET_SCL_LOW s)
        else s
      delayMicroseconds env.DELAY (SET_SDA_LOW s2)
    else s
  let s3 :=
    if s1._scl_set = Level.LOW then
      delayMicroseconds env.DELAY (SET_SCL_HIGH s1)
    else s1
  delayMicroseconds (env.DELAY * 2) (SET_SDA_HIGH s3)

/-! ## Byte write -/

/-- The part of `i2c_write` after its loop ("get Ack or Nak"). -/
def i2c_write_ack (env : Platform) (fuel : Nat) (s : State) : Option Bool × State :=
  let s1 := SET_SDA_HIGH s
  let s2 := delayMicroseconds env.DELAY s1
  let s3 := SET_SCL_HIGH s2
  let s4 := delayMicroseconds (env.DELAY / 2) s3
  match ClockStretch env fuel s4 with
  | (none, s5) => (none, s5)
  | (some true, s5) => (some false, s5)
  | (some false, s5) =>
    match digitalRead env Pin._sda s5 with
    | (ack, s6) =>
      (some (decide (ack = Level.LOW)), delayMicroseconds env.DELAY (SET_SCL_LOW s6))

/-- The loop `for (uint8_t curr = 0X80; curr != 0; curr >>= 1)` of
`i2c_write`, continued by the rest of the function when the loop is left.
The first numeric argument is the fuel of this loop, `fuel` that of each
`ClockStretch`. -/
def i2c_write_loop (env : Platform) (fuel : Nat) (value : Nat) :
    Nat → Nat → State → Option Bool × State
  | 0, _, s => (none, s)
  | n + 1, curr, s =>
    if curr ≠ 0 then
      let s1 := if curr &&& value ≠ 0 then SET_SDA_HIGH s else SET_SDA_LOW s
      let s2 := delayMicroseconds env.DELAY s1
      let s3 := SET_SCL_HIGH s2
      let s4 := delayMicroseconds env.DELAY s3
      match ClockStretch env fuel s4 with
      | (none, s5) => (none, s5)
      | (some true, s5) => (some false, s5)
      | (some false, s5) => i2c_write_loop env fuel value n (curr >>> 1) (SET_SCL_LOW s5)
    else i2c_write_ack env fuel s

/-- Function `i2c_write(value)`. -/
def i2c_write (env : Platform) (fuel : Nat) (value : Nat) (s : State) : Option Bool × State :=
  i2c_write_loop env fuel value fuel 0x80 s

/-! ## Byte read -/

/-- The part of `i2c_read` after its loop: the acknowledge pulse. -/
def i2c_read_ack (env : Platform) (fuel : Nat) ( last : Bool) (value : Nat) (s : State) :
    Option Nat × State :=
  let s1 := if last then SET_SDA_HIGH s else SET_SDA_LOW s
  let s2 := SET_SCL_HIGH s1
  let s3 := delayMicroseconds env.DELAY s2
  match ClockStretch env fuel s3 with
  | (none, s4) => (none, s4)
  | (some true, s4) => (some 0xFF, s4)
  | (some false, s4) => (some value, delayMicroseconds env.DELAY (SET_SCL_LOW s4))

/-- The loop `for (uint8_t i = 0; i < 8; i++)` of `i2c_read`, continued by the
rest of the function when the loop is left; `value` is a `uint8_t`. -/
def i2c_read_loop (env : Platform) (fuel : Nat) ( last : Bool) :
    Nat → Nat → Nat → State → Option Nat × State
  | 0, _, _, s => (none, s)
  | n + 1, i, value, s =>
    if i < 8 then
      let value1 := (value <<< 1) % 256
      let s1 := SET_SCL_HIGH s
      let s2 := delayMicroseconds (env.DELAY / 2) s1
      match ClockStretch env fuel s2 with
      | (none, s3) => (none, s3)
      | (some true, s3) => (some 0xFF, s3)
      | (some false, s3) =>
        match digitalRead env Pin._sda s3 with
        | (bit, s4) =>
          let value2 := if bit = Level.HIGH then value1 ||| 1 else value1
          let s5 := SET_SCL_LOW s4
          let s6 := delayMicroseconds env.DELAY s5
          i2c_read_loop env fuel last n ((i + 1) % 256) value2 s6
    else i2c_read_ack env fuel last value s

/-- Function `i2c_read(last)`. -/
def i2c_read (env : Platform) (fuel : Nat) ( last : Bool) (s : State) : Option Nat × State :=
  let s1 := SET_SDA_HIGH s
  let s2 := delayMicroseconds env.DELAY s1
  i2c_read_loop env fuel last fuel 0 0 s2

/-! ## Start and repeated start -/

/-- Function `i2c_start(addr)`. -/
def i2c_start (env : Platform) (fuel : Nat) (addr : Nat) (s : State) : Option Bool × State :=
  let s1 :=
    if s._scl_set = Level.LOW then
      if s._sda_set = Level.HIGH then
        SET_SCL_HIGH (delayMicroseconds env.DELAY s)
      else
        SET_SCL_HIGH (delayMicroseconds env.DELAY
          (SET_SDA_HIGH (delayMicroseconds env.DELAY s)))
    else s
  let s2 := delayMicroseconds env.DELAY s1
  let s3 := SET_SDA_LOW s2
  let s4 := delayMicroseconds env.DELAY s3
  let s5 := SET_SCL_LOW s4
  i2c_write env fuel addr s5

/-- Function `i2c_rep_start(addr)`. -/
def i2c_rep_start (env : Platform) (fuel : Nat) (addr : Nat) (s : State) : Option Bool × State :=
  i2c_start env fuel addr s

/-! ## Initialisation -/

/-- The part of `i2c_init` after its loop: the stop condition and the two
level tests, the second of which is evaluated only when the first fails. -/
def i2c_init_check (env : Platform) (s : State) : Option Bool × State :=
  let s1 := i2c_stop env s
  match digitalRead env Pin._sda s1 with
  | (Level.LOW, s2) => (some false, s2)
  | (Level.HIGH, s2) =>
    match digitalRead env Pin._scl s2 with
    | (Level.LOW, s3) => (some false, s3)
    | (Level.HIGH, s3) => (some true, s3)

/-- The loop `for (uint8_t i = 0; i < 28; i++)` of `i2c_init`, continued by the
rest of the function when the loop is left. -/
def i2c_init_loop (env : Platform) : Nat → Nat → State → Option Bool × State
  | 0, _, s => (none, s)
  | n + 1, i, s =>
    if i < 28 then
      let s1 := SET_SCL_LOW s
      let s2 := delayMicroseconds env.DELAY s1
      let s3 := SET_SCL_HIGH s2
      let s4 := delayMicroseconds env.DELAY s3
      i2c_init_loop env n ((i + 1) % 256) s4
    else i2c_init_check env s

/-- Function `i2c_init()`. -/
def i2c_init (env : Platform) (fuel : Nat) (s : State) : Option Bool × State :=
  let s1 := SET_SCL_LOW s
  let s2 := SET_SDA_LOW s1
  let s3 := digitalWrite Pin._scl Level.LOW s2
  let s4 := digitalWrite Pin._sda Level.LOW s3
  let s5 := SET_SDA_HIGH s4
  let s6 := delayMicroseconds env.DELAY s5
  i2c_init_loop env fuel 0 s6

/-! ## Reading the trace

The definitions from here on are not code of the driver: they say what is
observed on a trace, and what a run of an operation looks like. -/

/-- Level a pin mode commands on an open-drain line: `INPUT` releases the line
(high through the pull-up), `OUTPUT` drives it low. -/
def Mode.level : Mode → Level
  | Mode.INPUT => Level.HIGH
  | Mode.OUTPUT => Level.LOW

/-- Level standing for a data bit: `HIGH` for 1 and `LOW` for 0. -/
def Level.ofBit (b : Bool) : Level :=
  if b then Level.HIGH else Level.LOW

/-- Numeric value of a level: `LOW` is 0 and `HIGH` is 1. -/
def Level.toNat : Level → Nat
  | Level.LOW => 0
  | Level.HIGH => 1

/-- Commanded state of SDA after one more trace entry. -/
def sdaStep (sda : Level) : Event → Level
  | Event.pinMode Pin._sda m => m.level
  | _ => sda

/-- Commanded state of SDA after a stretch of trace. -/
def sdaAfter (sda : Level) (t : List Event) : Level :=
  t.foldl sdaStep sda

/-- The commanded state of SDA at each release of SCL (`pinMode(_scl, INPUT)`)
in a stretch of trace, in order; `sda` is the commanded state of SDA at its
beginning. -/
def sdaAtSclRelease : Level → List Event → List Level
  | _, [] => []
  | sda, e :: t =>
    (if e = Event.pinMode Pin._scl Mode.INPUT then [sda] else [])
      ++ sdaAtSclRelease (sdaStep sda e) t

/-- The commanded state of both lines. -/
structure Lines where
  sda : Level
  scl : Level
  deriving DecidableEq, Repr

/-- The commanded state of the lines after one more trace entry: only
`pinMode` changes it. -/
def Lines.step (l : Lines) : Event → Lines
  | Event.pinMode Pin._sda m => { l with sda := m.level }
  | Event.pinMode Pin._scl m => { l with scl := m.level }
  | _ => l

/-- The commanded state of the lines after a stretch of trace. -/
def linesAfter (l : Lines) (t : List Event) : Lines :=
  t.foldl Lines.step l

/-- The line states the object tracks. -/
def State.lines (s : State) : Lines :=
  { sda := s._sda_set, scl := s._scl_set }

/-- The changes of commanded line state in a stretch of trace, in order, each
as the pair of the states before and after it. -/
def lineChanges : Lines → List Event → List (Lines × Lines)
  | _, [] => []
  | l, e :: t =>
    (if l.step e = l then [] else [(l, l.step e)]) ++ lineChanges (l.step e) t

/-- Entries a line command is made of: pin mode changes and microsecond
delays; no pin or clock is read and `ClockStretch` is not involved. -/
def Event.isCommand : Event → Bool
  | Event.pinMode _ _ => true
  | Event.delayMicroseconds _ => true
  | _ => false

/-- Entries made by the polling loop of `ClockStretch`: reads of SCL, clock
readings and `delay` calls. -/
def Event.isPoll : Event → Bool
  | Event.digitalRead Pin._scl _ => true
  | Event.millis _ => true
  | Event.delay _ => true
  | _ => false

/-- A stretch of trace made of polling entries only. -/
def Quiet (t : List Event) : Prop :=
  ∀ e ∈ t, e.isPoll = true

/-- Trace entry closing a `ClockStretch` invocation, none while it is still
polling. -/
def marker : Option Bool → List Event
  | none => []
  | some b => [Event.ClockStretch b]

/-- Entries other than a timed-out `ClockStretch` and a read of SDA. -/
def Event.benign : Event → Bool
  | Event.ClockStretch true => false
  | Event.digitalRead Pin._sda _ => false
  | _ => true

/-- A stretch of trace with no timeout and no read of SDA. -/
def Clean (t : List Event) : Prop :=
  ∀ e ∈ t, e.benign = true

/-! ## Bytes and bits -/

/-- The levels of the low `k` bits of `value`, most significant first. -/
def dataBits (value : Nat) : Nat → List Level
  | 0 => []
  | k + 1 => Level.ofBit (value.testBit k) :: dataBits value k

/-- The number spelt by a list of levels read as bits, most significant
first. -/
def byteOfLevels (ls : List Level) : Nat :=
  ls.foldl (fun acc l => 2 * acc + l.toNat) 0

/-- One pass of the read loop over the accumulator: `value <<= 1` on a
`uint8_t`, then `value |= 1` when the sample of SDA is high. -/
def shiftIn (value : Nat) (bit : Level) : Nat :=
  if bit = Level.HIGH then (value <<< 1) % 256 ||| 1 else (value <<< 1) % 256

/-- The next `k` levels of the SDA input stream from position `start`. -/
def samples (env : Platform) (start k : Nat) : List Level :=
  (List.range k).map (fun j => env.sda (start + j))

/-! ## Runs of the byte operations -/

/-- The three ways a run of the write loop, entered in state `s` with `k` data
bits left, can end, with the trace it has added: fuel used up inside a
`ClockStretch`, a `ClockStretch` that timed out, or the acknowledge sample. -/
inductive WriteRun (env : Platform) (s : State) (k : Nat) : Option Bool → List Event → Prop
  | stuck (t : List Event) (ht : Clean t) : WriteRun env s k none t
  | timeout (t0 : List Event) (ht : Clean t0) :
      WriteRun env s k (some false) (t0 ++ [Event.ClockStretch true])
  | done (t0 : List Event) (ht : Clean t0)
      (hn : t0.count (Event.ClockStretch false) = k + 1)
      (b : Bool) (hb : b = decide (env.sda s.sdaReads = Level.LOW)) :
      WriteRun env s k (some b)
        (t0 ++ [Event.digitalRead Pin._sda (env.sda s.sdaReads),
          Event.pinMode Pin._scl Mode.OUTPUT, Event.delayMicroseconds env.DELAY])

/-- The three ways a run of the read loop entered with `k` bits left can end,
with the trace it has added; `x` is the byte the run returns when no
`ClockStretch` times out. -/
inductive ReadRun (k x : Nat) ( last : Bool) : Option Nat → List Event → Prop
  | stuck (t : List Event) (ht : Event.ClockStretch true ∉ t) : ReadRun k x last none t
  | timeout (t0 : List Event) (ht : Event.ClockStretch true ∉ t0) :
      ReadRun k x last (some 0xFF) (t0 ++ [Event.ClockStretch true])
  | done (t : List Event) (ht : Event.ClockStretch true ∉ t)
      (hrel : sdaAtSclRelease Level.HIGH t = List.replicate k Level.HIGH ++ [Level.ofBit last])
      (y : Nat) (hy : y = x) : ReadRun k x last (some y) t

/-! ## The trace of the initialisation -/

/-- The trace of `k` clock pulses of the recovery loop of `i2c_init`. -/
def pulseTrace (d : Nat) : Nat → List Event
  | 0 => []
  | k + 1 =>
    [Event.pinMode Pin._scl Mode.OUTPUT, Event.delayMicroseconds d,
      Event.pinMode Pin._scl Mode.INPUT, Event.delayMicroseconds d] ++ pulseTrace d k

/-- The calls of `i2c_init` up to its two level tests: the reset of both pins,
the release of SDA, 28 clock pulses and the stop condition. -/
def initTrace (d : Nat) : List Event :=
  [Event.pinMode Pin._scl Mode.OUTPUT, Event.pinMode Pin._sda Mode.OUTPUT,
    Event.digitalWrite Pin._scl Level.LOW, Event.digitalWrite Pin._sda Level.LOW,
    Event.pinMode Pin._sda Mode.INPUT, Event.delayMicroseconds d]
  ++ pulseTrace d 28
  ++ [Event.pinMode Pin._scl Mode.OUTPUT, Event.delayMicroseconds d,
    Event.pinMode Pin._sda Mode.OUTPUT, Event.delayMicroseconds d,
    Event.pinMode Pin._scl Mode.INPUT, Event.delayMicroseconds d,
    Event.pinMode Pin._sda Mode.INPUT, Event.delayMicroseconds (d * 2)]

/-! ## Example buses -/

/-- An idle object: both lines tracked released, nothing read or called yet. -/
def idleState : State :=
  { _sda_set := Level.HIGH, _scl_set := Level.HIGH, sdaReads := 0, sclReads := 0,
    clockReads := 0, trace := [] }

/-- A bus that never stretches the clock, whose slave holds SDA low whenever it
is sampled (it acknowledges every byte). -/
def ackBus : Platform :=
  { DELAY := 4, sda := fun _ => Level.LOW, scl := fun _ => Level.HIGH, clock := fun k => k }

/-- A bus that never stretches the clock, whose slave presents the bits of
`data`, most significant first, on the first eight samples of SDA. -/
def echoBus (data : Nat) : Platform :=
  { DELAY := 4, sda := fun k => Level.ofBit (data.testBit (7 - k)),
    scl := fun _ => Level.HIGH, clock := fun k => k }

/-- A bus whose slave holds SCL low for ever, with a clock that advances by
five seconds from one reading to the next. -/
def stuckBus : Platform :=
  { DELAY := 4, sda := fun _ => Level.HIGH, scl := fun _ => Level.LOW,
    clock := fun k => 5000 * k }

/-- A bus whose slave holds SCL low, with the millisecond counter standing at
`2^32 - 2`, two milliseconds before it wraps. -/
def wrapBus : Platform :=
  { DELAY := 4, sda := fun _ => Level.HIGH, scl := fun _ => Level.LOW,
    clock := fun _ => 4294967294 }

/-! ## Line discipline -/

/-- Entries that respect the open-drain emulation: every entry but a
`digitalWrite` of `HIGH`. -/
def Event.openDrain : Event → Bool
  | Event.digitalWrite _ Level.HIGH => false
  | _ => true

/-- The changes of the commanded state of SDA made while SCL is commanded
released, in order, each as the pair of the line states before and after it. -/
def sdaEdges : Lines → List Event → List (Lines × Lines)
  | _, [] => []
  | l, e :: t =>
    (if (l.step e).sda ≠ l.sda ∧ l.scl = Level.HIGH then [(l, l.step e)] else [])
      ++ sdaEdges (l.step e) t

/-- What a piece of code does to the bus, as seen on the trace `t` it adds
between the states `s` and `s'`: it writes no `HIGH` to a pin, the line states
the object tracks follow the pin modes it sets, and, when `calm` holds at its
entry, it changes SDA only while SCL is commanded low. -/
structure Effect (calm : Prop) (s s' : State) (t : List Event) : Prop where
  trace : s'.trace = s.trace ++ t
  openDrain : ∀ e ∈ t, e.openDrain = true
  lines : linesAfter s.lines t = s'.lines
  edges : calm → sdaEdges s.lines t = []


/-- The open-drain emulation is kept between the states `s` and `s'`: the
trace added holds no `digitalWrite` of `HIGH` (the only level written to a pin
is `LOW`), and the line states the object tracks are those the pin modes set
command, so a line counts as high only once its pin has been switched to
`INPUT`. -/
def OpenDrainKept (s s' : State) : Prop :=
  ∃ t, s'.trace = s.trace ++ t ∧
    (∀ p v, Event.digitalWrite p v ∈ t → v = Level.LOW) ∧
    linesAfter s.lines t = s'.lines

/-! ## Sequences of calls -/

/-- A call of one of the five bus operations. -/
inductive Op where
  | start (addr : Nat)
  | rep_start (addr : Nat)
  | stop
  | write (value : Nat)
  | read ( last : Bool)
  deriving DecidableEq, Repr

/-- Run one call: whether it returned, and the state it left. -/
def Op.run (env : Platform) (fuel : Nat) : Op → State → Bool × State
  | Op.start addr, s => ((i2c_start env fuel addr s).1.isSome, (i2c_start env fuel addr s).2)
  | Op.rep_start addr, s =>
    ((i2c_rep_start env fuel addr s).1.isSome, (i2c_rep_start env fuel addr s).2)
  | Op.stop, s => (true, i2c_stop env s)
  | Op.write value, s => ((i2c_write env fuel value s).1.isSome, (i2c_write env fuel value s).2)
  | Op.read last, s => ((i2c_read env fuel last s).1.isSome, (i2c_read env fuel last s).2)

/-- The condition under which a call is made: `i2c_write` and `i2c_read` only
with SCL tracked driven low. -/
def Op.allowed : Op → State → Prop
  | Op.write _, s => s._scl_set = Level.LOW
  | Op.read _, s => s._scl_set = Level.LOW
  | _, _ => True

/-- The changes of SDA while SCL is commanded released that a call may make:
one fall (START) for a start, one rise (STOP) for a stop, none for a byte
transfer. -/
def Op.edges : Op → List (Lines × Lines)
  | Op.start _ =>
    [({ sda := Level.HIGH, scl := Level.HIGH }, { sda := Level.LOW, scl := Level.HIGH })]
  | Op.rep_start _ =>
    [({ sda := Level.HIGH, scl := Level.HIGH }, { sda := Level.LOW, scl := Level.HIGH })]
  | Op.stop =>
    [({ sda := Level.LOW, scl := Level.HIGH }, { sda := Level.HIGH, scl := Level.HIGH })]
  | Op.write _ => []
  | Op.read _ => []

/-- The states reached from the one `i2c_init` leaves by a sequence of calls,
each made under `Op.allowed`, each returning, none with a `ClockStretch`
timeout. -/
inductive Reachable (env : Platform) : State → Prop
  | init (fuel : Nat) (s0 : State) : Reachable env (i2c_init env (fuel + 29) s0).2
  | call (s : State) (op : Op) (fuel : Nat) (t : List Event) (hs : Reachable env s)
      (ha : op.allowed s) (hret : (op.run env fuel s).1 = true)
      (ht : (op.run env fuel s).2.trace = s.trace ++ t)
      (hno : Event.ClockStretch true ∉ t) : Reachable env (op.run env fuel s).2


/-! ## The polling of `ClockStretch` -/

/-- The traces the loop of `ClockStretch` can add, pass by pass, for deadlines
`T1` and `T2`, with the value returned (`none`: fuel used up).  A pass that
reads SCL high returns 0.  A pass that reads SCL low takes a clock reading
`r1`: below `T1` it goes round again with no delay; otherwise it takes a second
reading `r2`, and below `T2` calls `delay(1)` once and goes round again, else
returns 1. -/
inductive StretchTrace (T1 T2 : Nat) : Option Bool → List Event → Prop
  | out : StretchTrace T1 T2 none []
  | released :
      StretchTrace T1 T2 (some false)
        [Event.digitalRead Pin._scl Level.HIGH, Event.ClockStretch false]
  | timeout (r1 r2 : Nat) (h1 : T1 ≤ r1) (h2 : T2 ≤ r2) :
      StretchTrace T1 T2 (some true)
        [Event.digitalRead Pin._scl Level.LOW, Event.millis r1, Event.millis r2,
          Event.ClockStretch true]
  | busy (r1 : Nat) (h1 : r1 < T1) (r : Option Bool) (t : List Event)
      (h : StretchTrace T1 T2 r t) :
      StretchTrace T1 T2 r ([Event.digitalRead Pin._scl Level.LOW, Event.millis r1] ++ t)
  | yield (r1 r2 : Nat) (h1 : T1 ≤ r1) (h2 : r2 < T2) (r : Option Bool) (t : List Event)
      (h : StretchTrace T1 T2 r t) :
      StretchTrace T1 T2 r
        ([Event.digitalRead Pin._scl Level.LOW, Event.millis r1, Event.millis r2,
          Event.delay 1] ++ t)

/-- A pulled-up bus that never stretches the clock: SDA reads high at the
first sample (the idle test of `i2c_init`) and low afterwards (the slave
acknowledges). -/
def pulledUpBus : Platform :=
  { DELAY := 4, sda := fun k => if k = 0 then Level.HIGH else Level.LOW,
    scl := fun _ => Level.HIGH, clock := fun k => k }

/-- A bus whose slave acknowledges, but holds SCL low at the very first poll
of SCL, while the clock advances by five seconds from one reading to the next:
the first `ClockStretch` times out, the later ones return at once. -/
def glitchBus : Platform :=
  { DELAY := 4, sda := fun _ => Level.LOW,
    scl := fun k => if k = 0 then Level.LOW else Level.HIGH, clock := fun k => 5000 * k }

/-- The state left on `glitchBus` by an `i2c_start(0x40)` made on the idle bus:
the first address bit, a 0, is on SDA and SCL is released when the
`ClockStretch` that follows times out. -/
def afterTimeout : State :=
  (i2c_start glitchBus 9 0x40 idleState).2

/-- A bus whose slave holds SCL low, with a clock that reads 0 at the entry of
`ClockStretch` and 2 from then on. -/
def twoMsBus : Platform :=
  { DELAY := 4, sda := fun _ => Level.HIGH, scl := fun _ => Level.LOW,
    clock := fun k => if k = 0 then 0 else 2 }


/-- A bus whose slave holds SCL low, with a clock that reads 0 at the entry of
`ClockStretch` and 5000 from then on. -/
def lateBus : Platform :=
  { DELAY := 4, sda := fun _ => Level.HIGH, scl := fun _ => Level.LOW,
    clock := fun k => if k = 0 then 0 else 5000 }

/-! ## Lemmas on traces -/

theorem sdaAfter_append (l : Level) (t1 t2 : List Event) :
    sdaAfter l (t1 ++ t2) = sdaAfter (sdaAfter l t1) t2 := by
  simp [sdaAfter, List.foldl_append]

theorem sdaAtSclRelease_append (t1 t2 : List Event) : ∀ l : Level,
    sdaAtSclRelease l (t1 ++ t2)
      = sdaAtSclRelease l t1 ++ sdaAtSclRelease (sdaAfter l t1) t2 := by
  induction t1 with
  | nil => intro l; simp [sdaAtSclRelease, sdaAfter]
  | cons e t ih =>
    intro l
    simp [sdaAtSclRelease, sdaAfter, ih, List.append_assoc]

theorem Quiet.nil : Quiet [] := by
  intro e he; simp at he

theorem Quiet.append_quiet {t1 t2 : List Event} (h1 : Quiet t1) (h2 : Quiet t2) :
    Quiet (t1 ++ t2) := by
  intro e he
  rcases List.mem_append.mp he with h | h
  · exact h1 e h
  · exact h2 e h

theorem Quiet.sdaAfter_eq {t : List Event} (h : Quiet t) : ∀ l : Level, sdaAfter l t = l := by
  induction t with
  | nil => intro l; rfl
  | cons e t ih =>
    intro l
    have he : e.isPoll = true := h e (by simp)
    have ht : Quiet t := fun x hx => h x (by simp [hx])
    have : sdaStep l e = l := by
      cases e <;> first | rfl | simp [Event.isPoll] at he
    simp [sdaAfter] at ih ⊢
    rw [this]; exact ih ht l

theorem Quiet.releases_eq {t : List Event} (h : Quiet t) :
    ∀ l : Level, sdaAtSclRelease l t = [] := by
  induction t with
  | nil => intro l; rfl
  | cons e t ih =>
    intro l
    have he : e.isPoll = true := h e (by simp)
    have ht : Quiet t := fun x hx => h x (by simp [hx])
    have hne : e ≠ Event.pinMode Pin._scl Mode.INPUT := by
      intro hc; rw [hc] at he; simp [Event.isPoll] at he
    simp [sdaAtSclRelease, hne, ih ht]

theorem Quiet.clean {t : List Event} (h : Quiet t) : Clean t := by
  intro e he
  have := h e he
  cases e with
  | digitalRead p v => cases p <;> first | rfl | simp [Event.isPoll] at this
  | ClockStretch b => simp [Event.isPoll] at this
  | _ => rfl

theorem Quiet.not_mem_return {t : List Event} (h : Quiet t) (b : Bool) :
    Event.ClockStretch b ∉ t := by
  intro hc
  have := h _ hc
  simp [Event.isPoll] at this

theorem Clean.append_clean {t1 t2 : List Event} (h1 : Clean t1) (h2 : Clean t2) :
    Clean (t1 ++ t2) := by
  intro e he
  rcases List.mem_append.mp he with h | h
  · exact h1 e h
  · exact h2 e h

theorem Clean.not_mem_timeout {t : List Event} (h : Clean t) :
    Event.ClockStretch true ∉ t := by
  intro hc
  have := h _ hc
  simp [Event.benign] at this

theorem Clean.not_mem_read {t : List Event} (h : Clean t) (x : Level) :
    Event.digitalRead Pin._sda x ∉ t := by
  intro hc
  have := h _ hc
  simp [Event.benign] at this

theorem sdaAtSclRelease_bit (l : Level) (m : Mode) (d1 d2 : Nat) (t : List Event) :
    sdaAtSclRelease l ([Event.pinMode Pin._sda m, Event.delayMicroseconds d1,
      Event.pinMode Pin._scl Mode.INPUT, Event.delayMicroseconds d2] ++ t)
      = m.level :: sdaAtSclRelease m.level t := by
  simp [sdaAtSclRelease, sdaStep]

theorem Quiet.releases_append {q : List Event} (hq : Quiet q) (l : Level)
    (t : List Event) : sdaAtSclRelease l (q ++ t) = sdaAtSclRelease l t := by
  rw [sdaAtSclRelease_append, hq.releases_eq, hq.sdaAfter_eq]
  rfl

theorem lineChanges_append (t1 t2 : List Event) : ∀ l : Lines,
    lineChanges l (t1 ++ t2) = lineChanges l t1 ++ lineChanges (linesAfter l t1) t2 := by
  induction t1 with
  | nil => intro l; simp [lineChanges, linesAfter]
  | cons e t ih =>
    intro l
    simp [lineChanges, linesAfter, ih, List.append_assoc]

/-- The two branches of `if (curr & value)` as one assignment of SDA. -/
theorem SET_SDA_ite (c : Prop) [Decidable c] (s : State) :
    (if c then SET_SDA_HIGH s else SET_SDA_LOW s)
      = { s with _sda_set := Level.ofBit (decide c),
                 trace := s.trace ++ [Event.pinMode Pin._sda
                   (if c then Mode.INPUT else Mode.OUTPUT)] } := by
  by_cases h : c <;> simp [h, SET_SDA_HIGH, SET_SDA_LOW, pinMode, emit, Level.ofBit]

/-! ## What a `ClockStretch` invocation does -/

theorem ClockStretch_loop_run (env : Platform) (a b : Nat) :
    ∀ (fuel : Nat) (s : State) (r : Option Bool) (s' : State),
      ClockStretch_loop env a b fuel s = (r, s') →
      s'._sda_set = s._sda_set ∧ s'._scl_set = s._scl_set ∧ s'.sdaReads = s.sdaReads ∧
        ∃ q, Quiet q ∧ s'.trace = s.trace ++ q ++ marker r := by
  intro fuel
  induction fuel with
  | zero =>
    intro s r s' h
    simp only [ClockStretch_loop, Prod.mk.injEq] at h
    obtain ⟨rfl, rfl⟩ := h
    exact ⟨rfl, rfl, rfl, [], Quiet.nil, by simp [marker]⟩
  | succ fuel ih =>
    intro s r s' h
    simp only [ClockStretch_loop, digitalRead, millis] at h
    cases hl : env.scl s.sclReads with
    | HIGH =>
      simp only [hl, Prod.mk.injEq] at h
      obtain ⟨rfl, rfl⟩ := h
      refine ⟨rfl, rfl, rfl, [Event.digitalRead Pin._scl Level.HIGH], ?_, ?_⟩
      · intro e he; simp at he; subst he; rfl
      · simp [emit, marker]
    | LOW =>
      simp only [hl] at h
      split at h
      · obtain ⟨h1, h2, h3, q, hq, ht⟩ := ih _ _ _ h
        refine ⟨by simpa [emit] using h1, by simpa [emit] using h2, by simpa [emit] using h3,
          [Event.digitalRead Pin._scl Level.LOW, Event.millis (env.clock s.clockReads % 2 ^ 32)] ++ q,
          ?_, ?_⟩
        · apply Quiet.append_quiet _ hq
          intro e he; simp at he; rcases he with rfl | rfl <;> rfl
        · simpa [emit, List.append_assoc] using ht
      · split at h
        · obtain ⟨h1, h2, h3, q, hq, ht⟩ := ih _ _ _ h
          refine ⟨by simpa [emit, delay] using h1, by simpa [emit, delay] using h2,
            by simpa [emit, delay] using h3,
            [Event.digitalRead Pin._scl Level.LOW, Event.millis (env.clock s.clockReads % 2 ^ 32),
              Event.millis (env.clock (s.clockReads + 1) % 2 ^ 32), Event.delay 1] ++ q, ?_, ?_⟩
          · apply Quiet.append_quiet _ hq
            intro e he; simp at he; rcases he with rfl | rfl | rfl | rfl <;> rfl
          · simpa [emit, delay, List.append_assoc] using ht
        · simp only [Prod.mk.injEq] at h
          obtain ⟨rfl, rfl⟩ := h
          refine ⟨rfl, rfl, rfl,
            [Event.digitalRead Pin._scl Level.LOW, Event.millis (env.clock s.clockReads % 2 ^ 32),
              Event.millis (env.clock (s.clockReads + 1) % 2 ^ 32)], ?_, ?_⟩
          · intro e he; simp at he; rcases he with rfl | rfl | rfl <;> rfl
          · simp [emit, marker]

theorem ClockStretch_run (env : Platform) (fuel : Nat) (s : State) (r : Option Bool)
    (s' : State) (h : ClockStretch env fuel s = (r, s')) :
    s'._sda_set = s._sda_set ∧ s'._scl_set = s._scl_set ∧ s'.sdaReads = s.sdaReads ∧
      ∃ q, Quiet q ∧ s'.trace = s.trace ++ q ++ marker r := by
  simp only [ClockStretch, millis] at h
  obtain ⟨h1, h2, h3, q, hq, ht⟩ := ClockStretch_loop_run env _ _ _ _ _ _ h
  refine ⟨by simpa [emit] using h1, by simpa [emit] using h2, by simpa [emit] using h3,
    [Event.millis (env.clock s.clockReads % 2 ^ 32)] ++ q, ?_, ?_⟩
  · apply Quiet.append_quiet _ hq
    intro e he; simp at he; subst he; rfl
  · simpa [emit, List.append_assoc] using ht

/-- On a bus that does not stretch the clock a `ClockStretch` returns 0 at its
first poll. -/
theorem ClockStretch_released (env : Platform) (fuel : Nat) (s : State)
    (h : env.scl s.sclReads = Level.HIGH) :
    ∃ sc, ClockStretch env (fuel + 1) s = (some false, sc) := by
  simp [ClockStretch, ClockStretch_loop, millis, digitalRead, emit, h]

theorem ClockStretch_released_eq (env : Platform) (fuel : Nat) (s : State)
    (h : env.scl s.sclReads = Level.HIGH) :
    ClockStretch env (fuel + 1) s
      = (some false,
          { s with sclReads := s.sclReads + 1, clockReads := s.clockReads + 1,
                   trace := s.trace ++ [Event.millis (env.clock s.clockReads % 2 ^ 32),
                     Event.digitalRead Pin._scl Level.HIGH, Event.ClockStretch false] }) := by
  simp [ClockStretch, ClockStretch_loop, millis, digitalRead, emit, h]

theorem ClockStretch_loop_timeout (env : Platform) (a b : Nat) :
    ∀ (fuel : Nat) (s s' : State), ClockStretch_loop env a b fuel s = (some true, s') →
      ∃ q r, s'.trace = s.trace ++ q ++ [Event.millis r, Event.ClockStretch true] ∧ b ≤ r := by
  intro fuel
  induction fuel with
  | zero =>
    intro s s' h
    simp [ClockStretch_loop] at h
  | succ fuel ih =>
    intro s s' h
    simp only [ClockStretch_loop, digitalRead, millis] at h
    cases hl : env.scl s.sclReads with
    | HIGH =>
      simp [hl] at h
    | LOW =>
      simp only [hl] at h
      split at h
      · obtain ⟨q, r, ht, hr⟩ := ih _ _ h
        refine ⟨[Event.digitalRead Pin._scl Level.LOW,
          Event.millis (env.clock s.clockReads % 2 ^ 32)] ++ q, r, ?_, hr⟩
        simpa [emit, List.append_assoc] using ht
      · split at h
        · obtain ⟨q, r, ht, hr⟩ := ih _ _ h
          refine ⟨[Event.digitalRead Pin._scl Level.LOW,
            Event.millis (env.clock s.clockReads % 2 ^ 32),
            Event.millis (env.clock (s.clockReads + 1) % 2 ^ 32), Event.delay 1] ++ q, r, ?_, hr⟩
          simpa [emit, delay, List.append_assoc] using ht
        · rename_i hnot
          simp only [Prod.mk.injEq, true_and] at h
          subst h
          refine ⟨[Event.digitalRead Pin._scl Level.LOW,
            Event.millis (env.clock s.clockReads % 2 ^ 32)],
            env.clock (s.clockReads + 1) % 2 ^ 32, ?_, ?_⟩
          · simp [emit]
          · simpa [emit] using hnot

/-- Away from the wrap of the counter a timeout comes only after a clock
reading at least 3002 ms past the reading taken at entry: when
`entry + 3002 < 2^32`, the clock reading that makes `ClockStretch` return 1 is
at least `entry + 3002`. -/
theorem ClockStretch_timeout_after_deadline (env : Platform) (fuel : Nat) (s s' : State)
    (h : ClockStretch env fuel s = (some true, s'))
    (hw : env.clock s.clockReads % 2 ^ 32 + 3002 < 2 ^ 32) :
    ∃ q r, s'.trace
        = s.trace ++ [Event.millis (env.clock s.clockReads % 2 ^ 32)] ++ q
          ++ [Event.millis r, Event.ClockStretch true] ∧
      env.clock s.clockReads % 2 ^ 32 + 3002 ≤ r := by
  simp only [ClockStretch, millis] at h
  obtain ⟨q, r, ht, hr⟩ := ClockStretch_loop_timeout env _ _ _ _ _ h
  refine ⟨q, r, by simpa [emit, List.append_assoc] using ht, ?_⟩
  have h1 : (2 + env.clock s.clockReads % 2 ^ 32) % 2 ^ 32
      = 2 + env.clock s.clockReads % 2 ^ 32 := Nat.mod_eq_of_lt (by omega)
  have h2 : (3000 + (2 + env.clock s.clockReads % 2 ^ 32)) % 2 ^ 32
      = 3000 + (2 + env.clock s.clockReads % 2 ^ 32) := Nat.mod_eq_of_lt (by omega)
  rw [h1, h2] at hr
  omega

/-! ## Bits -/

theorem two_pow_and_ne_zero (k v : Nat) : 2 ^ k &&& v ≠ 0 ↔ v.testBit k = true := by
  constructor
  · intro h
    by_contra hb
    apply h
    apply Nat.eq_of_testBit_eq
    intro i
    simp only [Nat.testBit_and, Nat.testBit_two_pow, Nat.zero_testBit]
    by_cases hki : k = i
    · subst hki; simp [hb]
    · simp [hki]
  · intro h hz
    have : (2 ^ k &&& v).testBit k = true := by
      simp [Nat.testBit_and, Nat.testBit_two_pow, h]
    rw [hz] at this
    simp at this

theorem mask_eq (k : Nat) : 2 ^ (k + 1) / 2 = 2 ^ k := by
  rw [pow_succ]; simp

theorem mask_shift (k : Nat) : (2 ^ (k + 1) / 2) >>> 1 = 2 ^ k / 2 := by
  rw [Nat.shiftRight_eq_div_pow, mask_eq]

theorem mask_ne_zero (k : Nat) : 2 ^ (k + 1) / 2 ≠ 0 := by
  rw [mask_eq]
  positivity

theorem foldl_dataBits (v : Nat) : ∀ (k acc : Nat),
    (dataBits v k).foldl (fun a l => 2 * a + l.toNat) acc = acc * 2 ^ k + v % 2 ^ k := by
  intro k
  induction k with
  | zero => intro acc; simp [dataBits, Nat.mod_one]
  | succ k ih =>
    intro acc
    have hb : (Level.ofBit (v.testBit k)).toNat = v / 2 ^ k % 2 := by
      rw [← Nat.toNat_testBit]
      cases v.testBit k <;> rfl
    simp only [dataBits, List.foldl_cons, ih, hb, Nat.mod_pow_succ]
    ring

theorem byteOfLevels_dataBits (v : Nat) (hv : v < 256) : byteOfLevels (dataBits v 8) = v := by
  rw [byteOfLevels, foldl_dataBits]
  simp only [Nat.zero_mul, Nat.zero_add]
  exact Nat.mod_eq_of_lt hv

theorem dataBits_getElem (v : Nat) (i : Nat) (hi : i < 8) :
    (dataBits v 8 ++ [Level.HIGH])[i]? = some (Level.ofBit (v.testBit (7 - i))) := by
  interval_cases i <;> rfl

theorem shiftIn_bits_list (l0 l1 l2 l3 l4 l5 l6 l7 : Level) :
    [l0, l1, l2, l3, l4, l5, l6, l7].foldl shiftIn 0 < 256 ∧
      ([l0, l1, l2, l3, l4, l5, l6, l7].foldl shiftIn 0).testBit 7 = decide (l0 = Level.HIGH) ∧
      ([l0, l1, l2, l3, l4, l5, l6, l7].foldl shiftIn 0).testBit 6 = decide (l1 = Level.HIGH) ∧
      ([l0, l1, l2, l3, l4, l5, l6, l7].foldl shiftIn 0).testBit 5 = decide (l2 = Level.HIGH) ∧
      ([l0, l1, l2, l3, l4, l5, l6, l7].foldl shiftIn 0).testBit 4 = decide (l3 = Level.HIGH) ∧
      ([l0, l1, l2, l3, l4, l5, l6, l7].foldl shiftIn 0).testBit 3 = decide (l4 = Level.HIGH) ∧
      ([l0, l1, l2, l3, l4, l5, l6, l7].foldl shiftIn 0).testBit 2 = decide (l5 = Level.HIGH) ∧
      ([l0, l1, l2, l3, l4, l5, l6, l7].foldl shiftIn 0).testBit 1 = decide (l6 = Level.HIGH) ∧
      ([l0, l1, l2, l3, l4, l5, l6, l7].foldl shiftIn 0).testBit 0 = decide (l7 = Level.HIGH) := by
  cases l0 <;> cases l1 <;> cases l2 <;> cases l3 <;> cases l4 <;> cases l5 <;> cases l6 <;>
    cases l7 <;> decide

/-- Eight passes of the read loop starting from 0 assemble the sampled levels
into a byte, the first sample in bit 7. -/
theorem shiftIn_bits (f : Nat → Level) :
    ((List.range 8).map f).foldl shiftIn 0 < 256 ∧
      ∀ i, i < 8 →
        (((List.range 8).map f).foldl shiftIn 0).testBit (7 - i) = decide (f i = Level.HIGH) := by
  have hr : (List.range 8).map f = [f 0, f 1, f 2, f 3, f 4, f 5, f 6, f 7] := rfl
  rw [hr]
  obtain ⟨h, h0, h1, h2, h3, h4, h5, h6, h7⟩ :=
    shiftIn_bits_list (f 0) (f 1) (f 2) (f 3) (f 4) (f 5) (f 6) (f 7)
  refine ⟨h, ?_⟩
  intro i hi
  interval_cases i
  · exact h0
  · exact h1
  · exact h2
  · exact h3
  · exact h4
  · exact h5
  · exact h6
  · exact h7

/-- A number below 256 is determined by its bits 7 to 0. -/
theorem byte_eq_of_testBit (x y : Nat) (hx : x < 256) (hy : y < 256)
    (h : ∀ i, i < 8 → x.testBit (7 - i) = y.testBit (7 - i)) : x = y := by
  apply Nat.eq_of_testBit_eq
  intro j
  by_cases hj : j < 8
  · have := h (7 - j) (by omega)
    rwa [show 7 - (7 - j) = j by omega] at this
  · have h8 : (256 : Nat) ≤ 2 ^ j := by
      calc (256 : Nat) = 2 ^ 8 := by norm_num
        _ ≤ 2 ^ j := Nat.pow_le_pow_right (by norm_num) (by omega)
    rw [Nat.testBit_eq_false_of_lt (lt_of_lt_of_le hx h8),
      Nat.testBit_eq_false_of_lt (lt_of_lt_of_le hy h8)]

theorem samples_succ (env : Platform) (start k : Nat) :
    samples env start (k + 1) = env.sda start :: samples env (start + 1) k := by
  simp only [samples, List.range_succ_eq_map, List.map_cons, List.map_map, Nat.add_zero]
  congr 1
  apply List.map_congr_left
  intro j _
  simp only [Function.comp, Nat.succ_eq_add_one]
  congr 1
  omega

/-! ## What a byte write does -/

theorem i2c_write_ack_run (env : Platform) (fuel : Nat) (s : State) (r : Option Bool)
    (s' : State) (h : i2c_write_ack env fuel s = (r, s')) :
    ∃ t, s'.trace = s.trace ++ t ∧ WriteRun env s 0 r t ∧
      (∀ l, ∃ rest, sdaAtSclRelease l t ++ rest = [Level.HIGH]) ∧
      (Event.ClockStretch true ∉ t → r ≠ none → ∀ l, sdaAtSclRelease l t = [Level.HIGH]) := by
  simp only [i2c_write_ack] at h
  rcases hcs : ClockStretch env fuel
    (delayMicroseconds (env.DELAY / 2) (SET_SCL_HIGH (delayMicroseconds env.DELAY (SET_SDA_HIGH s))))
    with ⟨rc, sc⟩
  rw [hcs] at h
  obtain ⟨-, -, h3, q, hq, ht⟩ := ClockStretch_run _ _ _ _ _ hcs
  simp only [delayMicroseconds, SET_SCL_HIGH, SET_SDA_HIGH, pinMode, emit,
    List.append_assoc, List.singleton_append] at h3 ht
  have hpre : Clean ([Event.pinMode Pin._sda Mode.INPUT, Event.delayMicroseconds env.DELAY,
      Event.pinMode Pin._scl Mode.INPUT, Event.delayMicroseconds (env.DELAY / 2)] ++ q) := by
    apply Clean.append_clean _ hq.clean
    intro e he; simp at he; rcases he with rfl | rfl | rfl | rfl <;> rfl
  have hrel : ∀ (l : Level) (t2 : List Event), sdaAfter Level.HIGH t2 = Level.HIGH →
      sdaAtSclRelease Level.HIGH t2 = [] →
      sdaAtSclRelease l ([Event.pinMode Pin._sda Mode.INPUT,
        Event.delayMicroseconds env.DELAY, Event.pinMode Pin._scl Mode.INPUT,
        Event.delayMicroseconds (env.DELAY / 2)] ++ t2) = [Level.HIGH] := by
    intro l t2 _ h2
    simp [sdaAtSclRelease, sdaStep, Mode.level, h2]
  cases rc with
  | none =>
    simp only [Prod.mk.injEq] at h
    obtain ⟨rfl, rfl⟩ := h
    refine ⟨[Event.pinMode Pin._sda Mode.INPUT, Event.delayMicroseconds env.DELAY,
      Event.pinMode Pin._scl Mode.INPUT, Event.delayMicroseconds (env.DELAY / 2)] ++ q,
      by simpa [marker] using ht, WriteRun.stuck _ hpre, ?_, fun _ hn => absurd rfl hn⟩
    intro l
    exact ⟨[], by simpa using hrel l q (hq.sdaAfter_eq _) (hq.releases_eq _)⟩
  | some b =>
    cases b with
    | true =>
      simp only [Prod.mk.injEq] at h
      obtain ⟨rfl, rfl⟩ := h
      refine ⟨([Event.pinMode Pin._sda Mode.INPUT, Event.delayMicroseconds env.DELAY,
        Event.pinMode Pin._scl Mode.INPUT, Event.delayMicroseconds (env.DELAY / 2)] ++ q)
          ++ [Event.ClockStretch true],
        by simpa [marker] using ht, WriteRun.timeout _ hpre, ?_, fun hn => absurd (by simp) hn⟩
      intro l
      refine ⟨[], ?_⟩
      rw [List.append_assoc, List.append_nil]
      apply hrel
      · rw [sdaAfter_append, hq.sdaAfter_eq]; rfl
      · rw [sdaAtSclRelease_append, hq.releases_eq]; rfl
    | false =>
      simp only [digitalRead, Prod.mk.injEq] at h
      obtain ⟨rfl, rfl⟩ := h
      simp only [h3]
      refine ⟨(([Event.pinMode Pin._sda Mode.INPUT, Event.delayMicroseconds env.DELAY,
        Event.pinMode Pin._scl Mode.INPUT, Event.delayMicroseconds (env.DELAY / 2)] ++ q)
          ++ [Event.ClockStretch false])
          ++ [Event.digitalRead Pin._sda (env.sda s.sdaReads),
            Event.pinMode Pin._scl Mode.OUTPUT, Event.delayMicroseconds env.DELAY],
        ?_, WriteRun.done _ ?_ ?_ _ rfl, ?_⟩
      · simp [delayMicroseconds, SET_SCL_LOW, pinMode, emit, ht, marker]
      · apply Clean.append_clean hpre
        intro e he; simp at he; subst he; rfl
      · have := hq.not_mem_return false
        simp [List.count_append, List.count_eq_zero_of_not_mem this]
      · have hall : ∀ l, sdaAtSclRelease l ((([Event.pinMode Pin._sda Mode.INPUT,
            Event.delayMicroseconds env.DELAY, Event.pinMode Pin._scl Mode.INPUT,
            Event.delayMicroseconds (env.DELAY / 2)] ++ q) ++ [Event.ClockStretch false])
            ++ [Event.digitalRead Pin._sda (env.sda s.sdaReads),
              Event.pinMode Pin._scl Mode.OUTPUT, Event.delayMicroseconds env.DELAY])
            = [Level.HIGH] := by
          intro l
          rw [List.append_assoc, List.append_assoc]
          apply hrel
          · rw [sdaAfter_append, hq.sdaAfter_eq]; rfl
          · rw [sdaAtSclRelease_append, hq.releases_eq]; rfl
        exact ⟨fun l => ⟨[], by rw [List.append_nil]; exact hall l⟩, fun _ _ l => hall l⟩

theorem WriteRun.extend_write {env : Platform} {s s2 : State} {k : Nat} {r : Option Bool}
    {p t : List Event} (hp : Clean p) (hn : p.count (Event.ClockStretch false) = 1)
    (hs : s2.sdaReads = s.sdaReads) (h : WriteRun env s2 k r t) :
    WriteRun env s (k + 1) r (p ++ t) := by
  cases h with
  | stuck t ht => exact WriteRun.stuck _ (hp.append_clean ht)
  | timeout t0 ht =>
    rw [← List.append_assoc]
    exact WriteRun.timeout _ (hp.append_clean ht)
  | done t0 ht hc b hb =>
    rw [← List.append_assoc, hs]
    refine WriteRun.done _ (hp.append_clean ht) ?_ b (by rw [hb, hs])
    rw [List.count_append, hn, hc]
    omega

theorem i2c_write_loop_run (env : Platform) (fuel : Nat) (value : Nat) :
    ∀ (n k : Nat) (s : State) (r : Option Bool) (s' : State),
      i2c_write_loop env fuel value n (2 ^ k / 2) s = (r, s') →
      ∃ t, s'.trace = s.trace ++ t ∧ WriteRun env s k r t ∧
        (∀ l, ∃ rest, sdaAtSclRelease l t ++ rest = dataBits value k ++ [Level.HIGH]) ∧
        (Event.ClockStretch true ∉ t → r ≠ none →
          ∀ l, sdaAtSclRelease l t = dataBits value k ++ [Level.HIGH]) := by
  intro n
  induction n with
  | zero =>
    intro k s r s' h
    simp only [i2c_write_loop, Prod.mk.injEq] at h
    obtain ⟨rfl, rfl⟩ := h
    refine ⟨[], by simp, WriteRun.stuck _ (fun e he => by simp at he), ?_,
      fun _ hn => absurd rfl hn⟩
    intro l
    exact ⟨_, by simp [sdaAtSclRelease]; rfl⟩
  | succ n ih =>
    intro k s r s' h
    cases k with
    | zero =>
      simp only [i2c_write_loop] at h
      simpa [dataBits] using i2c_write_ack_run env fuel s r s' h
    | succ k =>
      rw [i2c_write_loop, if_pos (mask_ne_zero k), mask_shift, SET_SDA_ite] at h
      simp only at h
      generalize hm : (if 2 ^ (k + 1) / 2 &&& value ≠ 0 then Mode.INPUT else Mode.OUTPUT) = m
        at h
      have hml : m.level = Level.ofBit (value.testBit k) := by
        rw [← hm, mask_eq]
        by_cases hb : value.testBit k = true
        · rw [if_pos ((two_pow_and_ne_zero k value).mpr hb), hb]; rfl
        · rw [if_neg (fun hc => hb ((two_pow_and_ne_zero k value).mp hc))]
          simp only [Bool.not_eq_true] at hb
          rw [hb]; rfl
      rcases hcs : ClockStretch env fuel (delayMicroseconds env.DELAY (SET_SCL_HIGH
        (delayMicroseconds env.DELAY
          { s with _sda_set := Level.ofBit (decide (2 ^ (k + 1) / 2 &&& value ≠ 0)),
                   trace := s.trace ++ [Event.pinMode Pin._sda m] }))) with ⟨rc, sc⟩
      rw [hcs] at h
      obtain ⟨-, -, h3, q, hq, ht⟩ := ClockStretch_run _ _ _ _ _ hcs
      simp only [delayMicroseconds, SET_SCL_HIGH, pinMode, emit,
        List.append_assoc, List.singleton_append] at h3 ht
      have hpre : Clean ([Event.pinMode Pin._sda m, Event.delayMicroseconds env.DELAY,
          Event.pinMode Pin._scl Mode.INPUT, Event.delayMicroseconds env.DELAY] ++ q) := by
        apply Clean.append_clean _ hq.clean
        intro e he; simp at he; rcases he with rfl | rfl | rfl | rfl <;> rfl
      cases rc with
      | none =>
        simp only [Prod.mk.injEq] at h
        obtain ⟨rfl, rfl⟩ := h
        refine ⟨[Event.pinMode Pin._sda m, Event.delayMicroseconds env.DELAY,
          Event.pinMode Pin._scl Mode.INPUT, Event.delayMicroseconds env.DELAY] ++ q,
          by simpa [marker] using ht, WriteRun.stuck _ hpre, ?_, fun _ hn => absurd rfl hn⟩
        intro l
        refine ⟨dataBits value k ++ [Level.HIGH], ?_⟩
        rw [sdaAtSclRelease_bit, hq.releases_eq, hml]
        rfl
      | some b =>
        cases b with
        | true =>
          simp only [Prod.mk.injEq] at h
          obtain ⟨rfl, rfl⟩ := h
          refine ⟨([Event.pinMode Pin._sda m, Event.delayMicroseconds env.DELAY,
            Event.pinMode Pin._scl Mode.INPUT, Event.delayMicroseconds env.DELAY] ++ q)
              ++ [Event.ClockStretch true],
            by simpa [marker] using ht, WriteRun.timeout _ hpre, ?_,
            fun hn => absurd (by simp) hn⟩
          intro l
          refine ⟨dataBits value k ++ [Level.HIGH], ?_⟩
          rw [List.append_assoc, sdaAtSclRelease_bit, hq.releases_append, hml]
          rfl
        | false =>
          obtain ⟨t, htr, hrun, hbits, hfull⟩ := ih k _ _ _ h
          have hp2 : Clean (([Event.pinMode Pin._sda m, Event.delayMicroseconds env.DELAY,
              Event.pinMode Pin._scl Mode.INPUT, Event.delayMicroseconds env.DELAY] ++ q)
              ++ [Event.ClockStretch false, Event.pinMode Pin._scl Mode.OUTPUT]) := by
            apply Clean.append_clean hpre
            intro e he; simp at he; rcases he with rfl | rfl <;> rfl
          refine ⟨(([Event.pinMode Pin._sda m, Event.delayMicroseconds env.DELAY,
              Event.pinMode Pin._scl Mode.INPUT, Event.delayMicroseconds env.DELAY] ++ q)
              ++ [Event.ClockStretch false, Event.pinMode Pin._scl Mode.OUTPUT]) ++ t,
            ?_, WriteRun.extend_write hp2 ?_ ?_ hrun, ?_, ?_⟩
          · rw [htr]
            simp [SET_SCL_LOW, pinMode, emit, ht, marker]
          · have := hq.not_mem_return false
            simp [List.count_append, List.count_eq_zero_of_not_mem this]
          · simpa [SET_SCL_LOW, pinMode, emit] using h3
          · intro l
            obtain ⟨rest, hrest⟩ := hbits m.level
            refine ⟨rest, ?_⟩
            rw [List.append_assoc, List.append_assoc, sdaAtSclRelease_bit,
              hq.releases_append]
            simp only [dataBits, ← hml, List.cons_append]
            congr 1
          · intro hno hr l
            have hno' : Event.ClockStretch true ∉ t := fun hc => hno (by simp [hc])
            rw [List.append_assoc, List.append_assoc, sdaAtSclRelease_bit,
              hq.releases_append]
            simp only [dataBits, ← hml, List.cons_append]
            congr 1
            exact hfull hno' hr m.level

theorem i2c_write_loop_returns (env : Platform) (fuel value : Nat)
    (hscl : ∀ j, env.scl j = Level.HIGH) :
    ∀ (n k : Nat) (s : State), k < n →
      ∃ s', i2c_write_loop env (fuel + 1) value n (2 ^ k / 2) s
        = (some (decide (env.sda s.sdaReads = Level.LOW)), s') := by
  intro n
  induction n with
  | zero => intro k s hk; omega
  | succ n ih =>
    intro k s hk
    cases k with
    | zero =>
      simp only [i2c_write_loop, i2c_write_ack]
      obtain ⟨sc, hsc⟩ := ClockStretch_released env fuel
        (delayMicroseconds (env.DELAY / 2) (SET_SCL_HIGH (delayMicroseconds env.DELAY
          (SET_SDA_HIGH s)))) (hscl _)
      obtain ⟨-, -, h3, -⟩ := ClockStretch_run _ _ _ _ _ hsc
      simp only [delayMicroseconds, SET_SCL_HIGH, SET_SDA_HIGH, pinMode, emit] at h3
      simp [hsc, digitalRead, h3]
    | succ k =>
      rw [i2c_write_loop, if_pos (mask_ne_zero k), mask_shift, SET_SDA_ite]
      simp only
      obtain ⟨sc, hsc⟩ := ClockStretch_released env fuel
        (delayMicroseconds env.DELAY (SET_SCL_HIGH (delayMicroseconds env.DELAY
          { s with _sda_set := Level.ofBit (decide (2 ^ (k + 1) / 2 &&& value ≠ 0)),
                   trace := s.trace ++ [Event.pinMode Pin._sda
                     (if 2 ^ (k + 1) / 2 &&& value ≠ 0 then Mode.INPUT else Mode.OUTPUT)] })))
        (hscl _)
      obtain ⟨-, -, h3, -⟩ := ClockStretch_run _ _ _ _ _ hsc
      simp only [delayMicroseconds, SET_SCL_HIGH, pinMode, emit] at h3
      rw [hsc]
      obtain ⟨s', hs'⟩ := ih k (SET_SCL_LOW sc) (by omega)
      refine ⟨s', ?_⟩
      simp only [hs']
      simp [SET_SCL_LOW, pinMode, emit, h3]

/-- What any run of `i2c_write` leaves behind, whatever the bus does. -/
theorem i2c_write_run (env : Platform) (fuel value : Nat) (s : State) :
    ∃ t, (i2c_write env fuel value s).2.trace = s.trace ++ t ∧
      WriteRun env s 8 (i2c_write env fuel value s).1 t ∧
      (∀ l, ∃ rest, sdaAtSclRelease l t ++ rest = dataBits value 8 ++ [Level.HIGH]) ∧
      (Event.ClockStretch true ∉ t → (i2c_write env fuel value s).1 ≠ none →
        ∀ l, sdaAtSclRelease l t = dataBits value 8 ++ [Level.HIGH]) :=
  i2c_write_loop_run env fuel value fuel 8 s _ _ rfl

/-! ## What a byte read does -/

theorem ReadRun.extend_read {k x : Nat} { last : Bool} {r : Option Nat} {p t : List Event}
    (hp : Event.ClockStretch true ∉ p)
    (hrel : ∀ t2, sdaAtSclRelease Level.HIGH (p ++ t2)
      = Level.HIGH :: sdaAtSclRelease Level.HIGH t2)
    (h : ReadRun k x last r t) : ReadRun (k + 1) x last r (p ++ t) := by
  cases h with
  | stuck t ht =>
    exact ReadRun.stuck _ (by simp [hp, ht])
  | timeout t0 ht =>
    rw [← List.append_assoc]
    exact ReadRun.timeout _ (by simp [hp, ht])
  | done t ht hr y hy =>
    refine ReadRun.done _ (by simp [hp, ht]) ?_ y hy
    rw [hrel, hr]
    rfl

theorem i2c_read_ack_run (env : Platform) (fuel : Nat) ( last : Bool) (value : Nat)
    (s : State) (r : Option Nat) (s' : State)
    (h : i2c_read_ack env fuel last value s = (r, s')) :
    ∃ t, s'.trace = s.trace ++ t ∧ ReadRun 0 value last r t := by
  rw [i2c_read_ack, SET_SDA_ite] at h
  generalize hm : (if last = true then Mode.INPUT else Mode.OUTPUT) = m at h
  have hml : m.level = Level.ofBit last := by
    rw [← hm]; cases last <;> rfl
  rcases hcs : ClockStretch env fuel (delayMicroseconds env.DELAY (SET_SCL_HIGH
    { s with _sda_set := Level.ofBit (decide (last = true)),
             trace := s.trace ++ [Event.pinMode Pin._sda m] })) with ⟨rc, sc⟩
  rw [hcs] at h
  obtain ⟨-, -, -, q, hq, ht⟩ := ClockStretch_run _ _ _ _ _ hcs
  simp only [delayMicroseconds, SET_SCL_HIGH, pinMode, emit,
    List.append_assoc, List.singleton_append] at ht
  have hq1 := hq.not_mem_return true
  cases rc with
  | none =>
    simp only [Prod.mk.injEq] at h
    obtain ⟨rfl, rfl⟩ := h
    exact ⟨[Event.pinMode Pin._sda m, Event.pinMode Pin._scl Mode.INPUT,
      Event.delayMicroseconds env.DELAY] ++ q, by simpa [marker] using ht,
      ReadRun.stuck _ (by simp [hq1])⟩
  | some b =>
    cases b with
    | true =>
      simp only [Prod.mk.injEq] at h
      obtain ⟨rfl, rfl⟩ := h
      exact ⟨([Event.pinMode Pin._sda m, Event.pinMode Pin._scl Mode.INPUT,
        Event.delayMicroseconds env.DELAY] ++ q) ++ [Event.ClockStretch true],
        by simpa [marker] using ht, ReadRun.timeout _ (by simp [hq1])⟩
    | false =>
      simp only [Prod.mk.injEq] at h
      obtain ⟨rfl, rfl⟩ := h
      refine ⟨[Event.pinMode Pin._sda m, Event.pinMode Pin._scl Mode.INPUT,
        Event.delayMicroseconds env.DELAY] ++ (q ++ [Event.ClockStretch false,
          Event.pinMode Pin._scl Mode.OUTPUT, Event.delayMicroseconds env.DELAY]),
        by simp [delayMicroseconds, SET_SCL_LOW, pinMode, emit, ht, marker],
        ReadRun.done _ (by simp [hq1]) ?_ _ rfl⟩
      have : sdaAtSclRelease (Level.ofBit last) (q ++ [Event.ClockStretch false,
          Event.pinMode Pin._scl Mode.OUTPUT, Event.delayMicroseconds env.DELAY]) = [] := by
        rw [hq.releases_append]; rfl
      simp [sdaAtSclRelease, sdaStep, this, hml]

theorem i2c_read_loop_run (env : Platform) (fuel : Nat) ( last : Bool) :
    ∀ (n k value : Nat) (s : State) (r : Option Nat) (s' : State), k ≤ 8 →
      i2c_read_loop env fuel last n (8 - k) value s = (r, s') →
      ∃ t, s'.trace = s.trace ++ t ∧
        ReadRun k ((samples env s.sdaReads k).foldl shiftIn value) last r t := by
  intro n
  induction n with
  | zero =>
    intro k value s r s' _ h
    simp only [i2c_read_loop, Prod.mk.injEq] at h
    obtain ⟨rfl, rfl⟩ := h
    exact ⟨[], by simp, ReadRun.stuck _ (by simp)⟩
  | succ n ih =>
    intro k value s r s' hk h
    cases k with
    | zero =>
      simp only [i2c_read_loop, Nat.sub_zero, Nat.lt_irrefl, if_false] at h
      simpa [samples] using i2c_read_ack_run env fuel last value s r s' h
    | succ k =>
      have hlt : 8 - (k + 1) < 8 := by omega
      have hnext : (8 - (k + 1) + 1) % 256 = 8 - k := by omega
      rw [i2c_read_loop, if_pos hlt, hnext] at h
      simp only at h
      rcases hcs : ClockStretch env fuel (delayMicroseconds (env.DELAY / 2) (SET_SCL_HIGH s))
        with ⟨rc, sc⟩
      rw [hcs] at h
      obtain ⟨-, -, h3, q, hq, ht⟩ := ClockStretch_run _ _ _ _ _ hcs
      simp only [delayMicroseconds, SET_SCL_HIGH, pinMode, emit,
        List.append_assoc, List.singleton_append] at h3 ht
      have hq1 := hq.not_mem_return true
      cases rc with
      | none =>
        simp only [Prod.mk.injEq] at h
        obtain ⟨rfl, rfl⟩ := h
        exact ⟨[Event.pinMode Pin._scl Mode.INPUT, Event.delayMicroseconds (env.DELAY / 2)] ++ q,
          by simpa [marker] using ht, ReadRun.stuck _ (by simp [hq1])⟩
      | some b =>
        cases b with
        | true =>
          simp only [Prod.mk.injEq] at h
          obtain ⟨rfl, rfl⟩ := h
          exact ⟨([Event.pinMode Pin._scl Mode.INPUT,
            Event.delayMicroseconds (env.DELAY / 2)] ++ q) ++ [Event.ClockStretch true],
            by simpa [marker] using ht, ReadRun.timeout _ (by simp [hq1])⟩
        | false =>
          simp only [digitalRead] at h
          obtain ⟨t, htr, hrun⟩ := ih k _ _ _ _ (by omega) h
          simp only [delayMicroseconds, SET_SCL_LOW, pinMode, emit, h3] at htr hrun
          refine ⟨([Event.pinMode Pin._scl Mode.INPUT,
            Event.delayMicroseconds (env.DELAY / 2)] ++ (q ++ [Event.ClockStretch false,
              Event.digitalRead Pin._sda (env.sda s.sdaReads),
              Event.pinMode Pin._scl Mode.OUTPUT, Event.delayMicroseconds env.DELAY])) ++ t,
            by simp [htr, ht, marker], ?_⟩
          rw [samples_succ, List.foldl_cons]
          refine ReadRun.extend_read (by simp [hq1]) ?_ hrun
          intro t2
          have : sdaAtSclRelease Level.HIGH (q ++ Event.ClockStretch false ::
              Event.digitalRead Pin._sda (env.sda s.sdaReads) ::
              Event.pinMode Pin._scl Mode.OUTPUT :: Event.delayMicroseconds env.DELAY :: t2)
              = sdaAtSclRelease Level.HIGH t2 := by
            rw [hq.releases_append]
            simp [sdaAtSclRelease, sdaStep]
          simp [sdaAtSclRelease, sdaStep, this]

/-- What any run of `i2c_read` leaves behind, whatever the bus does. -/
theorem i2c_read_run (env : Platform) (fuel : Nat) ( last : Bool) (s : State) :
    ∃ t, (i2c_read env fuel last s).2.trace = s.trace ++ t ∧
      (Event.ClockStretch true ∈ t →
        (i2c_read env fuel last s).1 = some 0xFF ∧
          ∃ t0, t = t0 ++ [Event.ClockStretch true] ∧ Event.ClockStretch true ∉ t0) ∧
      (Event.ClockStretch true ∉ t → ∀ x, (i2c_read env fuel last s).1 = some x →
        x = (samples env s.sdaReads 8).foldl shiftIn 0 ∧
          ∀ l, sdaAtSclRelease l t = List.replicate 8 Level.HIGH ++ [Level.ofBit last]) := by
  obtain ⟨t, ht, hrun⟩ := i2c_read_loop_run env fuel last fuel 8 0
    (delayMicroseconds env.DELAY (SET_SDA_HIGH s)) _ _ (by omega) rfl
  refine ⟨[Event.pinMode Pin._sda Mode.INPUT, Event.delayMicroseconds env.DELAY] ++ t, ?_, ?_⟩
  · rw [i2c_read, ht]
    simp [delayMicroseconds, SET_SDA_HIGH, pinMode, emit]
  · have hr : (i2c_read env fuel last s).1
        = (i2c_read_loop env fuel last fuel (8 - 8) 0
            (delayMicroseconds env.DELAY (SET_SDA_HIGH s))).1 := rfl
    rw [hr]
    generalize (i2c_read_loop env fuel last fuel (8 - 8) 0
      (delayMicroseconds env.DELAY (SET_SDA_HIGH s))).1 = r at hrun
    simp only [delayMicroseconds, SET_SDA_HIGH, pinMode, emit] at hrun
    cases hrun with
    | stuck t hno =>
      simp [hno]
    | timeout t0 hno =>
      refine ⟨fun _ => ⟨rfl, [Event.pinMode Pin._sda Mode.INPUT,
        Event.delayMicroseconds env.DELAY] ++ t0, by simp, by simp [hno]⟩, ?_⟩
      intro hc
      exact absurd (by simp) hc
    | done t hno hrel y hy =>
      refine ⟨fun hc => absurd hc (by simp [hno]), ?_⟩
      intro _ x hx
      simp only [Option.some.injEq] at hx
      subst hx
      refine ⟨hy, ?_⟩
      intro l
      simp [sdaAtSclRelease, sdaStep, Mode.level, hrel]

theorem i2c_read_loop_returns (env : Platform) (fuel : Nat) ( last : Bool)
    (hscl : ∀ j, env.scl j = Level.HIGH) :
    ∀ (n k value : Nat) (s : State), k ≤ 8 → k < n →
      ∃ s' t, i2c_read_loop env (fuel + 1) last n (8 - k) value s
          = (some ((samples env s.sdaReads k).foldl shiftIn value), s') ∧
        s'.trace = s.trace ++ t ∧ Event.ClockStretch true ∉ t := by
  intro n
  induction n with
  | zero => intro k value s _ hk; omega
  | succ n ih =>
    intro k value s hk8 hk
    cases k with
    | zero =>
      simp only [i2c_read_loop, Nat.sub_zero, Nat.lt_irrefl, if_false, i2c_read_ack]
      rw [ClockStretch_released_eq env fuel _ (hscl _), SET_SDA_ite]
      refine ⟨_, [Event.pinMode Pin._sda (if last = true then Mode.INPUT else Mode.OUTPUT),
        Event.pinMode Pin._scl Mode.INPUT, Event.delayMicroseconds env.DELAY,
        Event.millis (env.clock s.clockReads % 2 ^ 32), Event.digitalRead Pin._scl Level.HIGH,
        Event.ClockStretch false, Event.pinMode Pin._scl Mode.OUTPUT,
        Event.delayMicroseconds env.DELAY], rfl, ?_, by simp⟩
      simp [delayMicroseconds, SET_SCL_LOW, SET_SCL_HIGH, pinMode, emit]
    | succ k =>
      have hlt : 8 - (k + 1) < 8 := by omega
      have hnext : (8 - (k + 1) + 1) % 256 = 8 - k := by omega
      rw [i2c_read_loop, if_pos hlt, hnext]
      simp only
      rw [ClockStretch_released_eq env fuel _ (hscl _)]
      simp only [digitalRead]
      obtain ⟨s', t, hrun, htr, hno⟩ := ih k
        (if env.sda s.sdaReads = Level.HIGH then value <<< 1 % 256 ||| 1 else value <<< 1 % 256)
        (delayMicroseconds env.DELAY (SET_SCL_LOW
          (emit (Event.digitalRead Pin._sda (env.sda s.sdaReads))
            { (delayMicroseconds (env.DELAY / 2) (SET_SCL_HIGH s)) with
              sclReads := (delayMicroseconds (env.DELAY / 2) (SET_SCL_HIGH s)).sclReads + 1,
              clockReads := (delayMicroseconds (env.DELAY / 2) (SET_SCL_HIGH s)).clockReads + 1,
              trace := (delayMicroseconds (env.DELAY / 2) (SET_SCL_HIGH s)).trace
                ++ [Event.millis (env.clock
                    (delayMicroseconds (env.DELAY / 2) (SET_SCL_HIGH s)).clockReads % 2 ^ 32),
                  Event.digitalRead Pin._scl Level.HIGH, Event.ClockStretch false],
              sdaReads := s.sdaReads + 1 })))
        (by omega) (by omega)
      simp only [delayMicroseconds, SET_SCL_LOW, SET_SCL_HIGH, pinMode, emit] at hrun htr ⊢
      rw [samples_succ, List.foldl_cons]
      refine ⟨s', [Event.pinMode Pin._scl Mode.INPUT, Event.delayMicroseconds (env.DELAY / 2),
        Event.millis (env.clock s.clockReads % 2 ^ 32), Event.digitalRead Pin._scl Level.HIGH,
        Event.ClockStretch false, Event.digitalRead Pin._sda (env.sda s.sdaReads),
        Event.pinMode Pin._scl Mode.OUTPUT, Event.delayMicroseconds env.DELAY] ++ t,
        hrun, ?_, by simp [hno]⟩
      rw [htr]
      simp

theorem i2c_read_returns (env : Platform) (fuel : Nat) ( last : Bool) (s : State)
    (hscl : ∀ j, env.scl j = Level.HIGH) :
    ∃ s' t, i2c_read env (fuel + 9) last s
        = (some ((samples env s.sdaReads 8).foldl shiftIn 0), s') ∧
      s'.trace = s.trace ++ t ∧ Event.ClockStretch true ∉ t := by
  obtain ⟨s', t, hrun, htr, hno⟩ := i2c_read_loop_returns env (fuel + 8) last hscl (fuel + 9) 8 0
    (delayMicroseconds env.DELAY (SET_SDA_HIGH s)) (by omega) (by omega)
  refine ⟨s', [Event.pinMode Pin._sda Mode.INPUT, Event.delayMicroseconds env.DELAY] ++ t,
    hrun, ?_, by simp [hno]⟩
  rw [htr]
  simp [delayMicroseconds, SET_SDA_HIGH, pinMode, emit]

/-! ## What the initialisation does -/

theorem mem_pulseTrace (d : Nat) : ∀ (k : Nat) (e : Event), e ∈ pulseTrace d k →
    e = Event.pinMode Pin._scl Mode.OUTPUT ∨ e = Event.pinMode Pin._scl Mode.INPUT ∨
      e = Event.delayMicroseconds d := by
  intro k
  induction k with
  | zero => intro e he; simp [pulseTrace] at he
  | succ k ih =>
    intro e he
    simp only [pulseTrace, List.mem_append, List.mem_cons, List.mem_singleton,
      List.not_mem_nil, or_false] at he
    rcases he with (h | h | h | h) | h
    · exact Or.inl h
    · exact Or.inr (Or.inr h)
    · exact Or.inr (Or.inl h)
    · exact Or.inr (Or.inr h)
    · exact ih e h

theorem i2c_init_loop_eq (env : Platform) : ∀ (k n : Nat) (s : State), k < 28 → k + 1 < n →
    i2c_init_loop env n (28 - (k + 1)) s
      = i2c_init_check env
          { s with _scl_set := Level.HIGH,
                   trace := s.trace ++ pulseTrace env.DELAY (k + 1) } := by
  intro k
  induction k with
  | zero =>
    intro n s _ hn
    obtain ⟨m, rfl⟩ : ∃ m, n = m + 2 := ⟨n - 2, by omega⟩
    simp [i2c_init_loop, pulseTrace, delayMicroseconds, SET_SCL_HIGH, SET_SCL_LOW, pinMode, emit]
  | succ k ih =>
    intro n s hk hn
    obtain ⟨m, rfl⟩ : ∃ m, n = m + 1 := ⟨n - 1, by omega⟩
    have hlt : 28 - (k + 1 + 1) < 28 := by omega
    have hnext : (28 - (k + 1 + 1) + 1) % 256 = 28 - (k + 1) := by omega
    rw [i2c_init_loop, if_pos hlt, hnext]
    simp only
    rw [ih m _ (by omega) (by omega)]
    congr 1
    simp [pulseTrace, delayMicroseconds, SET_SCL_HIGH, SET_SCL_LOW, pinMode, emit]

theorem i2c_init_eq_check (env : Platform) (fuel : Nat) (s : State) :
    i2c_init env (fuel + 29) s
      = i2c_init_check env
          { s with _sda_set := Level.HIGH, _scl_set := Level.HIGH,
                   trace := s.trace ++ ([Event.pinMode Pin._scl Mode.OUTPUT,
                     Event.pinMode Pin._sda Mode.OUTPUT, Event.digitalWrite Pin._scl Level.LOW,
                     Event.digitalWrite Pin._sda Level.LOW, Event.pinMode Pin._sda Mode.INPUT,
                     Event.delayMicroseconds env.DELAY] ++ pulseTrace env.DELAY 28) } := by
  rw [i2c_init]
  rw [show (0 : Nat) = 28 - (27 + 1) by norm_num, i2c_init_loop_eq env 27 _ _ (by omega) (by omega)]
  congr 1
  simp [delayMicroseconds, digitalWrite, SET_SCL_LOW, SET_SDA_HIGH, SET_SDA_LOW, pinMode, emit]

/-- With fuel for its 28 pulses `i2c_init` reaches its two level tests in a
state that does not depend on what the pins read. -/
theorem i2c_init_eq (env : Platform) (fuel : Nat) (s : State) :
    i2c_init env (fuel + 29) s
      = match digitalRead env Pin._sda
          { s with _sda_set := Level.HIGH, _scl_set := Level.HIGH,
                   trace := s.trace ++ initTrace env.DELAY } with
        | (Level.LOW, s2) => (some false, s2)
        | (Level.HIGH, s2) =>
          match digitalRead env Pin._scl s2 with
          | (Level.LOW, s3) => (some false, s3)
          | (Level.HIGH, s3) => (some true, s3) := by
  have hstop : i2c_stop env
      { s with _sda_set := Level.HIGH, _scl_set := Level.HIGH,
               trace := s.trace ++ ([Event.pinMode Pin._scl Mode.OUTPUT,
                 Event.pinMode Pin._sda Mode.OUTPUT, Event.digitalWrite Pin._scl Level.LOW,
                 Event.digitalWrite Pin._sda Level.LOW, Event.pinMode Pin._sda Mode.INPUT,
                 Event.delayMicroseconds env.DELAY] ++ pulseTrace env.DELAY 28) }
      = { s with _sda_set := Level.HIGH, _scl_set := Level.HIGH,
                 trace := s.trace ++ initTrace env.DELAY } := by
    simp [i2c_stop, initTrace, delayMicroseconds, SET_SCL_HIGH, SET_SCL_LOW,
      SET_SDA_HIGH, SET_SDA_LOW, pinMode, emit]
  rw [i2c_init_eq_check, i2c_init_check, hstop]

/-- Whatever the tracked line state at entry, `i2c_stop` leaves both lines
tracked released. -/
theorem i2c_stop_tracked (env : Platform) (s : State) :
    (i2c_stop env s)._sda_set = Level.HIGH ∧ (i2c_stop env s)._scl_set = Level.HIGH := by
  obtain ⟨a, b, n1, n2, n3, tr⟩ := s
  cases a <;> cases b <;> exact ⟨rfl, rfl⟩

theorem linesAfter_initTrace (d : Nat) (l : Lines) :
    linesAfter l (initTrace d) = { sda := Level.HIGH, scl := Level.HIGH } := by
  rw [initTrace, linesAfter, List.foldl_append]
  rfl

/-! ## Byte transfers (C1 to C5) -/

/-- C1: on a bus that never stretches the clock (SCL reads high on every poll)
and whose slave acknowledges (SDA reads 0 at the acknowledge sample),
`i2c_write(v)` returns true for every byte `v`, and at the `i`-th release of
SCL, `i = 0..7`, SDA is commanded to bit `7 - i` of `v`: the eight levels spell
`v`, most significant bit first. -/
theorem i2c_write_sends_msb_first (env : Platform) (fuel v : Nat) (s : State)
    (hv : v < 256) (hscl : ∀ j, env.scl j = Level.HIGH)
    (hack : env.sda s.sdaReads = Level.LOW) :
    (i2c_write env (fuel + 9) v s).1 = some true ∧
      ∃ t, (i2c_write env (fuel + 9) v s).2.trace = s.trace ++ t ∧
        (∀ i, i < 8 →
          (sdaAtSclRelease s._sda_set t)[i]? = some (Level.ofBit (v.testBit (7 - i)))) ∧
        byteOfLevels ((sdaAtSclRelease s._sda_set t).take 8) = v := by
  obtain ⟨s', hs'⟩ := i2c_write_loop_returns env (fuel + 8) v hscl (fuel + 9) 8 s (by omega)
  have hres : (i2c_write env (fuel + 9) v s).1 = some true := by
    simp only [i2c_write]
    rw [show (128 : Nat) = 2 ^ 8 / 2 by norm_num, hs', hack]
    rfl
  obtain ⟨t, ht, hrun, -, hfull⟩ := i2c_write_run env (fuel + 9) v s
  refine ⟨hres, t, ht, ?_, ?_⟩
  all_goals
    have hno : Event.ClockStretch true ∉ t := by
      rw [hres] at hrun
      cases hrun with
      | done t0 hc _ _ _ =>
        intro hmem
        simp only [List.mem_append, List.mem_cons, List.mem_singleton, List.not_mem_nil,
          reduceCtorEq, or_false] at hmem
        exact hc.not_mem_timeout hmem
    have hrel := hfull hno (by rw [hres]; simp) s._sda_set
  · intro i hi
    rw [hrel]
    exact dataBits_getElem v i hi
  · rw [hrel]
    have : (dataBits v 8 ++ [Level.HIGH]).take 8 = dataBits v 8 := by
      simp [dataBits]
    rw [this]
    exact byteOfLevels_dataBits v hv

/-- Witness for C1: 0xA5 written to an acknowledging slave. -/
theorem i2c_write_sends_msb_first_witness :
    (i2c_write ackBus (0 + 9) 0xA5 idleState).1 = some true ∧
      ∃ t, (i2c_write ackBus (0 + 9) 0xA5 idleState).2.trace = idleState.trace ++ t ∧
        (∀ i, i < 8 →
          (sdaAtSclRelease idleState._sda_set t)[i]?
            = some (Level.ofBit (Nat.testBit 0xA5 (7 - i)))) ∧
        byteOfLevels ((sdaAtSclRelease idleState._sda_set t).take 8) = 0xA5 :=
  i2c_write_sends_msb_first ackBus 0 0xA5 idleState (by decide) (fun _ => rfl) rfl

/-- C2: whatever the pins and the clock do, `i2c_write(v)` returns true exactly
when none of its `ClockStretch` invocations timed out, all nine of them returned
and the acknowledge sample of SDA read 0; it returns false exactly when a
`ClockStretch` timed out or the acknowledge sample read 1 (NAK).  `t` is the
trace added by the call, which is determined by the first conjunct. -/
theorem i2c_write_true_iff_ack (env : Platform) (fuel v : Nat) (s : State) :
    ∃ t, (i2c_write env fuel v s).2.trace = s.trace ++ t ∧
      ((i2c_write env fuel v s).1 = some true ↔
        (Event.ClockStretch true ∉ t ∧ t.count (Event.ClockStretch false) = 9 ∧
          Event.digitalRead Pin._sda Level.LOW ∈ t)) ∧
      ((i2c_write env fuel v s).1 = some false ↔
        (Event.ClockStretch true ∈ t ∨ Event.digitalRead Pin._sda Level.HIGH ∈ t)) := by
  obtain ⟨t, ht, hrun, -, -⟩ := i2c_write_run env fuel v s
  refine ⟨t, ht, ?_⟩
  generalize (i2c_write env fuel v s).1 = r at hrun
  cases hrun with
  | stuck t hc =>
    have h1 := hc.not_mem_timeout
    have h2 := hc.not_mem_read Level.LOW
    have h3 := hc.not_mem_read Level.HIGH
    simp [h1, h2, h3]
  | timeout t0 hc =>
    simp
  | done t0 hc hn b hb =>
    have h1 := hc.not_mem_timeout
    have h2 := hc.not_mem_read Level.LOW
    have h3 := hc.not_mem_read Level.HIGH
    subst hb
    cases ha : env.sda s.sdaReads <;> simp [h1, h2, h3, hn]

/-- C3: in every run of `i2c_read(last)` that returns with no `ClockStretch`
timeout, the byte returned has the `i`-th sample of SDA in bit `7 - i`
(`i = 0..7`, most significant bit first), SDA is commanded released at the
eight data releases of SCL, and at the ninth (acknowledge) release it is
commanded low when `last` is false (ACK) and released when `last` is true
(NAK).  On a bus that never stretches the clock the call does return, with no
timeout. -/
theorem i2c_read_assembles_msb_first (env : Platform) (fuel : Nat) ( last : Bool)
    (s : State) :
    (∀ t x, (i2c_read env fuel last s).2.trace = s.trace ++ t →
        Event.ClockStretch true ∉ t → (i2c_read env fuel last s).1 = some x →
        x < 256 ∧
        (∀ i, i < 8 → x.testBit (7 - i) = decide (env.sda (s.sdaReads + i) = Level.HIGH)) ∧
        sdaAtSclRelease s._sda_set t
          = List.replicate 8 Level.HIGH ++ [if last then Level.HIGH else Level.LOW]) ∧
    ((∀ j, env.scl j = Level.HIGH) →
        ∃ t x, (i2c_read env (fuel + 9) last s).2.trace = s.trace ++ t ∧
          Event.ClockStretch true ∉ t ∧ (i2c_read env (fuel + 9) last s).1 = some x) := by
  constructor
  · intro t x ht hno hx
    obtain ⟨t', ht', -, hdone⟩ := i2c_read_run env fuel last s
    have htt : t' = t := List.append_cancel_left (ht'.symm.trans ht)
    subst htt
    obtain ⟨hval, hrel⟩ := hdone hno x hx
    obtain ⟨hlt, hbits⟩ := shiftIn_bits (fun j => env.sda (s.sdaReads + j))
    refine ⟨?_, ?_, ?_⟩
    · rw [hval]; exact hlt
    · intro i hi
      rw [hval]
      exact hbits i hi
    · rw [hrel]
      cases last <;> rfl
  · intro hscl
    obtain ⟨s', t, hrun, htr, hno⟩ := i2c_read_returns env fuel last s hscl
    exact ⟨t, _, by rw [hrun]; exact htr, hno, by rw [hrun]⟩

/-- Witness for C3: a read with `last` false on a bus presenting 0xA5. -/
theorem i2c_read_assembles_msb_first_witness :
    (0xA5 : Nat) < 256 ∧
      (∀ i, i < 8 →
        Nat.testBit 0xA5 (7 - i)
          = decide ((echoBus 0xA5).sda (idleState.sdaReads + i) = Level.HIGH)) ∧
      sdaAtSclRelease idleState._sda_set (i2c_read (echoBus 0xA5) 9 false idleState).2.trace
        = List.replicate 8 Level.HIGH ++ [Level.LOW] :=
  (i2c_read_assembles_msb_first (echoBus 0xA5) 9 false idleState).1
    (i2c_read (echoBus 0xA5) 9 false idleState).2.trace 0xA5 rfl (by decide) (by decide)

/-- C4 (round trip): feed the levels that `i2c_write(data)` commands on SDA at
its first eight releases of SCL, in order, as the eight samples of SDA of an
`i2c_read(true)` on a bus that never stretches the clock; the read returns
`data`. -/
theorem write_then_read_round_trip (envW : Platform) (fuelW data : Nat) (sW : State)
    (tW : List Event) (envR : Platform) (fuelR : Nat) (sR : State)
    (hdata : data < 256)
    (htW : (i2c_write envW fuelW data sW).2.trace = sW.trace ++ tW)
    (hfeed : ∀ i, i < 8 →
      (sdaAtSclRelease sW._sda_set tW)[i]? = some (envR.sda (sR.sdaReads + i)))
    (hscl : ∀ j, envR.scl j = Level.HIGH) :
    (i2c_read envR (fuelR + 9) true sR).1 = some data := by
  obtain ⟨t, ht, -, hbits, -⟩ := i2c_write_run envW fuelW data sW
  have htt : t = tW := List.append_cancel_left (ht.symm.trans htW)
  subst htt
  obtain ⟨rest, hrest⟩ := hbits sW._sda_set
  have hsample : ∀ i, i < 8 → envR.sda (sR.sdaReads + i) = Level.ofBit (data.testBit (7 - i)) := by
    intro i hi
    have h1 := hfeed i hi
    have hlen : i < (sdaAtSclRelease sW._sda_set t).length := by
      by_contra hc
      rw [List.getElem?_eq_none (by omega)] at h1
      exact absurd h1 (by simp)
    have h2 : (sdaAtSclRelease sW._sda_set t ++ rest)[i]? = some (envR.sda (sR.sdaReads + i)) := by
      rw [List.getElem?_append_left hlen]; exact h1
    rw [hrest, dataBits_getElem data i hi] at h2
    exact (Option.some.inj h2).symm
  obtain ⟨s', t', hrun, -, -⟩ := i2c_read_returns envR fuelR true sR hscl
  obtain ⟨hlt, hb⟩ := shiftIn_bits (fun j => envR.sda (sR.sdaReads + j))
  rw [hrun]
  simp only [Option.some.injEq]
  apply byte_eq_of_testBit _ _ hlt hdata
  intro i hi
  have := hb i hi
  show (List.foldl shiftIn 0 ((List.range 8).map fun j => envR.sda (sR.sdaReads + j))).testBit
    (7 - i) = data.testBit (7 - i)
  rw [this, hsample i hi]
  cases data.testBit (7 - i) <;> rfl

/-- Witness for C4: 0xA5 written to an acknowledging slave and read back. -/
theorem write_then_read_round_trip_witness :
    (i2c_read (echoBus 0xA5) (0 + 9) true idleState).1 = some 0xA5 :=
  write_then_read_round_trip ackBus 9 0xA5 idleState
    (i2c_write ackBus 9 0xA5 idleState).2.trace (echoBus 0xA5) 0 idleState
    (by decide) rfl (by decide) (fun _ => rfl)

/-- C5: a `ClockStretch` timeout inside `i2c_write` or `i2c_read` ends the byte
operation on the spot.  Whenever the trace added by the call (complete or cut
short by the fuel) holds a timed-out `ClockStretch`, the call has returned,
false for `i2c_write` and 0xFF for `i2c_read`, that timeout is the only one
and it is the last entry of the trace: no pin mode change, pin read or delay
follows it. -/
theorem timeout_aborts_byte_operation (env : Platform) (fuel v : Nat) ( last : Bool)
    (s : State) (tw tr : List Event)
    (hw : (i2c_write env fuel v s).2.trace = s.trace ++ tw)
    (hr : (i2c_read env fuel last s).2.trace = s.trace ++ tr) :
    (Event.ClockStretch true ∈ tw →
      (i2c_write env fuel v s).1 = some false ∧
        ∃ t0, tw = t0 ++ [Event.ClockStretch true] ∧ Event.ClockStretch true ∉ t0) ∧
    (Event.ClockStretch true ∈ tr →
      (i2c_read env fuel last s).1 = some 0xFF ∧
        ∃ t0, tr = t0 ++ [Event.ClockStretch true] ∧ Event.ClockStretch true ∉ t0) := by
  constructor
  · intro hmem
    obtain ⟨t, ht, hrun, -, -⟩ := i2c_write_run env fuel v s
    have htt : t = tw := List.append_cancel_left (ht.symm.trans hw)
    subst htt
    generalize (i2c_write env fuel v s).1 = r at hrun
    cases hrun with
    | stuck t hc => exact absurd hmem hc.not_mem_timeout
    | timeout t0 hc => exact ⟨rfl, t0, rfl, hc.not_mem_timeout⟩
    | done t0 hc hn b hb =>
      have := hc.not_mem_timeout
      simp [this] at hmem
  · intro hmem
    obtain ⟨t, ht, habort, -⟩ := i2c_read_run env fuel last s
    have htt : t = tr := List.append_cancel_left (ht.symm.trans hr)
    subst htt
    exact habort hmem

/-- Witness for C5: a write and a read on a bus whose slave never lets go of
SCL; both time out in their first `ClockStretch`. -/
theorem timeout_aborts_byte_operation_witness :
    ((i2c_write stuckBus 9 0xA5 idleState).1 = some false ∧
      ∃ t0, (i2c_write stuckBus 9 0xA5 idleState).2.trace = t0 ++ [Event.ClockStretch true] ∧
        Event.ClockStretch true ∉ t0) ∧
    ((i2c_read stuckBus 9 true idleState).1 = some 0xFF ∧
      ∃ t0, (i2c_read stuckBus 9 true idleState).2.trace = t0 ++ [Event.ClockStretch true] ∧
        Event.ClockStretch true ∉ t0) :=
  ⟨(timeout_aborts_byte_operation stuckBus 9 0xA5 true idleState
      (i2c_write stuckBus 9 0xA5 idleState).2.trace
      (i2c_read stuckBus 9 true idleState).2.trace rfl rfl).1 (by decide),
    (timeout_aborts_byte_operation stuckBus 9 0xA5 true idleState
      (i2c_write stuckBus 9 0xA5 idleState).2.trace
      (i2c_read stuckBus 9 true idleState).2.trace rfl rfl).2 (by decide)⟩

/-! ## The clock-stretch deadline near the wrap of the counter (C6) -/

/-- C6 (the code at the failing input): entered with the counter at `2^32 - 2`
and SCL held low, `ClockStretch` reports a timeout on its first pass through
the loop, although every clock reading is still the one of its entry: no
millisecond has elapsed, far fewer than 3000.  Both deadlines have wrapped
(`milliSeconds` is 0 and `milli3000` is 3000) and lie below the counter. -/
theorem ClockStretch_early_timeout_at_wrap :
    ClockStretch wrapBus 1 idleState
      = (some true,
          { idleState with
            sclReads := 1, clockReads := 3,
            trace := [Event.millis 4294967294, Event.digitalRead Pin._scl Level.LOW,
              Event.millis 4294967294, Event.millis 4294967294, Event.ClockStretch true] }) := by
  decide

/-! ## Initialisation, stop and start (C7 to C10) -/

/-- C7: `i2c_init` makes its reset and recovery sequence and the stop condition
(`seq`, in which no pin is read), then reads SDA and, when SDA reads high, SCL.
It returns false exactly when SDA reads low or SCL reads low after that
sequence, and true exactly when both read high; so it returns false when both
lines are stuck low.  Whatever the tracked line state at entry and whatever the
pins read, both lines end tracked released, the last pin mode of both being
`INPUT`. -/
theorem i2c_init_result (env : Platform) (fuel : Nat) (s : State) :
    ∃ seq, (∀ e ∈ seq, ∀ p v, e ≠ Event.digitalRead p v) ∧
      (i2c_init env (fuel + 29) s).2.trace
        = s.trace ++ seq ++ (Event.digitalRead Pin._sda (env.sda s.sdaReads) ::
            (if env.sda s.sdaReads = Level.LOW then []
              else [Event.digitalRead Pin._scl (env.scl s.sclReads)])) ∧
      ((i2c_init env (fuel + 29) s).1 = some false ↔
        (env.sda s.sdaReads = Level.LOW ∨ env.scl s.sclReads = Level.LOW)) ∧
      ((i2c_init env (fuel + 29) s).1 = some true ↔
        (env.sda s.sdaReads = Level.HIGH ∧ env.scl s.sclReads = Level.HIGH)) ∧
      (i2c_init env (fuel + 29) s).2._sda_set = Level.HIGH ∧
      (i2c_init env (fuel + 29) s).2._scl_set = Level.HIGH ∧
      linesAfter s.lines seq = { sda := Level.HIGH, scl := Level.HIGH } := by
  refine ⟨initTrace env.DELAY, ?_, ?_⟩
  · intro e he p v hc
    subst hc
    rw [initTrace] at he
    rcases List.mem_append.mp he with h12 | h3
    · rcases List.mem_append.mp h12 with h1 | h2
      · simp at h1
      · rcases mem_pulseTrace _ _ _ h2 with h | h | h <;> simp at h
    · simp at h3
  · rw [i2c_init_eq]
    simp only [digitalRead, emit]
    cases ha : env.sda s.sdaReads <;> cases hb : env.scl s.sclReads <;>
      simp [linesAfter_initTrace, ha, hb]

/-- C8: from each of the four tracked line states `i2c_stop` (a total
function) adds only pin mode changes and microsecond delays to the trace, so
it reads no pin and no clock and never enters `ClockStretch`; it leaves both
lines tracked released; its last line command is the release of SDA, issued
while SCL is commanded released; and its last call is a delay of `2 * DELAY`
microseconds. -/
theorem i2c_stop_releases_bus (env : Platform) (s : State) :
    ∃ t0, (i2c_stop env s).trace
        = s.trace ++ t0 ++ [Event.pinMode Pin._sda Mode.INPUT,
            Event.delayMicroseconds (env.DELAY * 2)] ∧
      (∀ e ∈ t0, e.isCommand = true) ∧
      (linesAfter s.lines t0).scl = Level.HIGH ∧
      (i2c_stop env s)._sda_set = Level.HIGH ∧ (i2c_stop env s)._scl_set = Level.HIGH ∧
      (i2c_stop env s).sdaReads = s.sdaReads ∧ (i2c_stop env s).sclReads = s.sclReads ∧
      (i2c_stop env s).clockReads = s.clockReads := by
  obtain ⟨a, b, n1, n2, n3, tr⟩ := s
  cases a <;> cases b
  · exact ⟨[Event.pinMode Pin._scl Mode.INPUT, Event.delayMicroseconds env.DELAY],
      by simp [i2c_stop, delayMicroseconds, SET_SCL_HIGH, SET_SDA_HIGH, pinMode, emit],
      by simp [Event.isCommand], rfl, rfl, rfl, rfl, rfl, rfl⟩
  · exact ⟨[], by simp [i2c_stop, delayMicroseconds, SET_SDA_HIGH, pinMode, emit],
      by simp [Event.isCommand], rfl, rfl, rfl, rfl, rfl, rfl⟩
  · exact ⟨[Event.pinMode Pin._sda Mode.OUTPUT, Event.delayMicroseconds env.DELAY,
        Event.pinMode Pin._scl Mode.INPUT, Event.delayMicroseconds env.DELAY],
      by simp [i2c_stop, delayMicroseconds, SET_SCL_HIGH, SET_SDA_HIGH, SET_SDA_LOW,
        pinMode, emit],
      by simp [Event.isCommand], rfl, rfl, rfl, rfl, rfl, rfl⟩
  · exact ⟨[Event.pinMode Pin._scl Mode.OUTPUT, Event.delayMicroseconds env.DELAY,
        Event.pinMode Pin._sda Mode.OUTPUT, Event.delayMicroseconds env.DELAY,
        Event.pinMode Pin._scl Mode.INPUT, Event.delayMicroseconds env.DELAY],
      by simp [i2c_stop, delayMicroseconds, SET_SCL_HIGH, SET_SCL_LOW, SET_SDA_HIGH,
        SET_SDA_LOW, pinMode, emit],
      by simp [Event.isCommand], rfl, rfl, rfl, rfl, rfl, rfl⟩

/-- C9: in `i2c_stop()` followed by `i2c_start(addr)`, from any tracked line
state and for any `addr`: the trace `tstop` added by the stop contains a change
of SDA from driven low to released while SCL is commanded released (STOP); the
start then makes a prelude of four calls and goes on as `i2c_write(addr)`,
which adds `tw`; the first line change of the start is SDA from released to
driven low while SCL is commanded released (START), the second is SCL driven
low, and every later one is made by `i2c_write`, so both come before any
address bit is put on SDA. -/
theorem stop_then_start_conditions (env : Platform) (fuel addr : Nat) (s : State) :
    ∃ tstop tw,
      (i2c_stop env s).trace = s.trace ++ tstop ∧
      (({ sda := Level.LOW, scl := Level.HIGH } : Lines),
        ({ sda := Level.HIGH, scl := Level.HIGH } : Lines)) ∈ lineChanges s.lines tstop ∧
      (i2c_start env fuel addr (i2c_stop env s)).2.trace
        = (i2c_stop env s).trace ++ [Event.delayMicroseconds env.DELAY,
            Event.pinMode Pin._sda Mode.OUTPUT, Event.delayMicroseconds env.DELAY,
            Event.pinMode Pin._scl Mode.OUTPUT] ++ tw ∧
      lineChanges (i2c_stop env s).lines ([Event.delayMicroseconds env.DELAY,
          Event.pinMode Pin._sda Mode.OUTPUT, Event.delayMicroseconds env.DELAY,
          Event.pinMode Pin._scl Mode.OUTPUT] ++ tw)
        = (({ sda := Level.HIGH, scl := Level.HIGH } : Lines),
              ({ sda := Level.LOW, scl := Level.HIGH } : Lines))
            :: (({ sda := Level.LOW, scl := Level.HIGH } : Lines),
              ({ sda := Level.LOW, scl := Level.LOW } : Lines))
            :: lineChanges { sda := Level.LOW, scl := Level.LOW } tw ∧
      i2c_start env fuel addr (i2c_stop env s)
        = i2c_write env fuel addr
            (SET_SCL_LOW (delayMicroseconds env.DELAY
              (SET_SDA_LOW (delayMicroseconds env.DELAY (i2c_stop env s))))) ∧
      (i2c_write env fuel addr
          (SET_SCL_LOW (delayMicroseconds env.DELAY
            (SET_SDA_LOW (delayMicroseconds env.DELAY (i2c_stop env s)))))).2.trace
        = (SET_SCL_LOW (delayMicroseconds env.DELAY
            (SET_SDA_LOW (delayMicroseconds env.DELAY (i2c_stop env s))))).trace ++ tw := by
  obtain ⟨hsda, hscl⟩ := i2c_stop_tracked env s
  obtain ⟨tw, htw, -⟩ := i2c_write_run env fuel addr
    (SET_SCL_LOW (delayMicroseconds env.DELAY
      (SET_SDA_LOW (delayMicroseconds env.DELAY (i2c_stop env s)))))
  have hstart : i2c_start env fuel addr (i2c_stop env s)
      = i2c_write env fuel addr
          (SET_SCL_LOW (delayMicroseconds env.DELAY
            (SET_SDA_LOW (delayMicroseconds env.DELAY (i2c_stop env s))))) := by
    simp [i2c_start, hscl]
  have hstop : ∃ tstop, (i2c_stop env s).trace = s.trace ++ tstop ∧
      (({ sda := Level.LOW, scl := Level.HIGH } : Lines),
        ({ sda := Level.HIGH, scl := Level.HIGH } : Lines)) ∈ lineChanges s.lines tstop := by
    obtain ⟨a, b, n1, n2, n3, tr⟩ := s
    cases a <;> cases b
    · exact ⟨[Event.pinMode Pin._scl Mode.INPUT, Event.delayMicroseconds env.DELAY,
          Event.pinMode Pin._sda Mode.INPUT, Event.delayMicroseconds (env.DELAY * 2)],
        by simp [i2c_stop, delayMicroseconds, SET_SCL_HIGH, SET_SDA_HIGH, pinMode, emit],
        by simp [lineChanges, Lines.step, State.lines, Mode.level]⟩
    · exact ⟨[Event.pinMode Pin._sda Mode.INPUT, Event.delayMicroseconds (env.DELAY * 2)],
        by simp [i2c_stop, delayMicroseconds, SET_SDA_HIGH, pinMode, emit],
        by simp [lineChanges, Lines.step, State.lines, Mode.level]⟩
    · exact ⟨[Event.pinMode Pin._sda Mode.OUTPUT, Event.delayMicroseconds env.DELAY,
          Event.pinMode Pin._scl Mode.INPUT, Event.delayMicroseconds env.DELAY,
          Event.pinMode Pin._sda Mode.INPUT, Event.delayMicroseconds (env.DELAY * 2)],
        by simp [i2c_stop, delayMicroseconds, SET_SCL_HIGH, SET_SDA_HIGH, SET_SDA_LOW,
          pinMode, emit],
        by simp [lineChanges, Lines.step, State.lines, Mode.level]⟩
    · exact ⟨[Event.pinMode Pin._scl Mode.OUTPUT, Event.delayMicroseconds env.DELAY,
          Event.pinMode Pin._sda Mode.OUTPUT, Event.delayMicroseconds env.DELAY,
          Event.pinMode Pin._scl Mode.INPUT, Event.delayMicroseconds env.DELAY,
          Event.pinMode Pin._sda Mode.INPUT, Event.delayMicroseconds (env.DELAY * 2)],
        by simp [i2c_stop, delayMicroseconds, SET_SCL_HIGH, SET_SCL_LOW, SET_SDA_HIGH,
          SET_SDA_LOW, pinMode, emit],
        by simp [lineChanges, Lines.step, State.lines, Mode.level]⟩
  obtain ⟨tstop, htstop, hchange⟩ := hstop
  refine ⟨tstop, tw, htstop, hchange, ?_, ?_, hstart, htw⟩
  · rw [hstart, htw]
    simp [delayMicroseconds, SET_SCL_LOW, SET_SDA_LOW, pinMode, emit]
  · simp [lineChanges, Lines.step, State.lines, Mode.level, hsda, hscl]

/-- C10 as stated fails: a second `i2c_stop`, entered with both lines tracked
released by the first, changes the commanded state of the lines. -/
theorem second_stop_changes_lines :
    (i2c_stop ackBus idleState)._sda_set = Level.HIGH ∧
    (i2c_stop ackBus idleState)._scl_set = Level.HIGH ∧
    ∃ t, (i2c_stop ackBus (i2c_stop ackBus idleState)).trace
        = (i2c_stop ackBus idleState).trace ++ t ∧
      lineChanges (i2c_stop ackBus idleState).lines t ≠ [] :=
  ⟨rfl, rfl,
    [Event.pinMode Pin._scl Mode.OUTPUT, Event.delayMicroseconds 4,
      Event.pinMode Pin._sda Mode.OUTPUT, Event.delayMicroseconds 4,
      Event.pinMode Pin._scl Mode.INPUT, Event.delayMicroseconds 4,
      Event.pinMode Pin._sda Mode.INPUT, Event.delayMicroseconds 8],
    by decide, by decide⟩

/-- C10, amended: entered with both lines tracked released, `i2c_stop` leaves
both lines tracked released and reads nothing, but it commands a whole stop
sequence on the way: SCL driven low, SDA driven low, SCL released, SDA
released, with a delay of `DELAY` microseconds after each of the first three
and the settling delay of `2 * DELAY` at the end. -/
theorem i2c_stop_when_released (env : Platform) (s : State)
    (hsda : s._sda_set = Level.HIGH) (hscl : s._scl_set = Level.HIGH) :
    (i2c_stop env s).trace
      = s.trace ++ [Event.pinMode Pin._scl Mode.OUTPUT, Event.delayMicroseconds env.DELAY,
          Event.pinMode Pin._sda Mode.OUTPUT, Event.delayMicroseconds env.DELAY,
          Event.pinMode Pin._scl Mode.INPUT, Event.delayMicroseconds env.DELAY,
          Event.pinMode Pin._sda Mode.INPUT, Event.delayMicroseconds (env.DELAY * 2)] ∧
    (i2c_stop env s)._sda_set = Level.HIGH ∧ (i2c_stop env s)._scl_set = Level.HIGH ∧
    lineChanges s.lines [Event.pinMode Pin._scl Mode.OUTPUT, Event.delayMicroseconds env.DELAY,
        Event.pinMode Pin._sda Mode.OUTPUT, Event.delayMicroseconds env.DELAY,
        Event.pinMode Pin._scl Mode.INPUT, Event.delayMicroseconds env.DELAY,
        Event.pinMode Pin._sda Mode.INPUT, Event.delayMicroseconds (env.DELAY * 2)]
      = [(({ sda := Level.HIGH, scl := Level.HIGH } : Lines),
            ({ sda := Level.HIGH, scl := Level.LOW } : Lines)),
          (({ sda := Level.HIGH, scl := Level.LOW } : Lines),
            ({ sda := Level.LOW, scl := Level.LOW } : Lines)),
          (({ sda := Level.LOW, scl := Level.LOW } : Lines),
            ({ sda := Level.LOW, scl := Level.HIGH } : Lines)),
          (({ sda := Level.LOW, scl := Level.HIGH } : Lines),
            ({ sda := Level.HIGH, scl := Level.HIGH } : Lines))] := by
  refine ⟨?_, ?_, ?_, ?_⟩
  · simp [i2c_stop, hsda, hscl, delayMicroseconds, SET_SCL_HIGH, SET_SCL_LOW, SET_SDA_HIGH,
      SET_SDA_LOW, pinMode, emit]
  · simp [i2c_stop, hsda, hscl, delayMicroseconds, SET_SCL_HIGH, SET_SCL_LOW, SET_SDA_HIGH,
      SET_SDA_LOW, pinMode, emit]
  · simp [i2c_stop, hsda, hscl, delayMicroseconds, SET_SCL_HIGH, SET_SCL_LOW, SET_SDA_HIGH,
      SET_SDA_LOW, pinMode, emit]
  · simp [lineChanges, Lines.step, State.lines, Mode.level, hsda, hscl]

/-- Witness for the amended C10: a stop on an idle bus. -/
theorem i2c_stop_when_released_witness :
    (i2c_stop ackBus idleState).trace
      = idleState.trace ++ [Event.pinMode Pin._scl Mode.OUTPUT,
          Event.delayMicroseconds ackBus.DELAY,
          Event.pinMode Pin._sda Mode.OUTPUT, Event.delayMicroseconds ackBus.DELAY,
          Event.pinMode Pin._scl Mode.INPUT, Event.delayMicroseconds ackBus.DELAY,
          Event.pinMode Pin._sda Mode.INPUT, Event.delayMicroseconds (ackBus.DELAY * 2)] :=
  (i2c_stop_when_released ackBus idleState rfl rfl).1

/-! ## Line discipline of the operations -/

theorem linesAfter_append (l : Lines) (t1 t2 : List Event) :
    linesAfter l (t1 ++ t2) = linesAfter (linesAfter l t1) t2 := by
  simp [linesAfter, List.foldl_append]

theorem sdaEdges_append (t1 t2 : List Event) : ∀ l : Lines,
    sdaEdges l (t1 ++ t2) = sdaEdges l t1 ++ sdaEdges (linesAfter l t1) t2 := by
  induction t1 with
  | nil => intro l; simp [sdaEdges, linesAfter]
  | cons e t ih =>
    intro l
    simp [sdaEdges, linesAfter, ih, List.append_assoc]

theorem Quiet.step_eq {e : Event} (he : e.isPoll = true) (l : Lines) : l.step e = l := by
  cases e with
  | pinMode p m => simp [Event.isPoll] at he
  | _ => rfl

theorem Quiet.linesAfter_eq {t : List Event} (h : Quiet t) : ∀ l : Lines, linesAfter l t = l := by
  induction t with
  | nil => intro l; rfl
  | cons e t ih =>
    intro l
    have ht : Quiet t := fun x hx => h x (by simp [hx])
    have := ih ht l
    simp only [linesAfter, List.foldl_cons] at this ⊢
    rw [Quiet.step_eq (h e (by simp)) l]
    exact this

theorem Quiet.sdaEdges_eq {t : List Event} (h : Quiet t) : ∀ l : Lines, sdaEdges l t = [] := by
  induction t with
  | nil => intro l; rfl
  | cons e t ih =>
    intro l
    have ht : Quiet t := fun x hx => h x (by simp [hx])
    simp [sdaEdges, Quiet.step_eq (h e (by simp)) l, ih ht l]

theorem Quiet.openDrain_all {t : List Event} (h : Quiet t) : ∀ e ∈ t, e.openDrain = true := by
  intro e he
  have := h e he
  cases e with
  | digitalWrite p v => simp [Event.isPoll] at this
  | _ => rfl

theorem effect_nil (c : Prop) (s : State) : Effect c s s [] :=
  ⟨by simp, by simp, rfl, fun _ => rfl⟩

theorem effect_append {c c1 : Prop} {s s1 s2 : State} {t1 t2 : List Event}
    (h1 : Effect c s s1 t1) (h2 : Effect c1 s1 s2 t2) (hc : c → c1) :
    Effect c s s2 (t1 ++ t2) := by
  refine ⟨?_, ?_, ?_, ?_⟩
  · rw [h2.trace, h1.trace, List.append_assoc]
  · intro e he
    rcases List.mem_append.mp he with h | h
    · exact h1.openDrain e h
    · exact h2.openDrain e h
  · rw [linesAfter_append, h1.lines, h2.lines]
  · intro h
    rw [sdaEdges_append, h1.edges h, h1.lines, h2.edges (hc h)]
    rfl

theorem effect_weaken {c c1 : Prop} {s s' : State} {t : List Event}
    (h : Effect c s s' t) (hc : c1 → c) : Effect c1 s s' t :=
  ⟨h.trace, h.openDrain, h.lines, fun h1 => h.edges (hc h1)⟩

theorem effect_SET_SDA_HIGH (s : State) :
    Effect (s._scl_set = Level.LOW) s (SET_SDA_HIGH s) [Event.pinMode Pin._sda Mode.INPUT] :=
  ⟨rfl, by simp [Event.openDrain], rfl,
    fun h => by simp [sdaEdges, State.lines, h]⟩

theorem effect_SET_SDA_LOW (s : State) :
    Effect (s._scl_set = Level.LOW) s (SET_SDA_LOW s) [Event.pinMode Pin._sda Mode.OUTPUT] :=
  ⟨rfl, by simp [Event.openDrain], rfl,
    fun h => by simp [sdaEdges, State.lines, h]⟩

theorem effect_SET_SCL_HIGH (s : State) :
    Effect True s (SET_SCL_HIGH s) [Event.pinMode Pin._scl Mode.INPUT] :=
  ⟨rfl, by simp [Event.openDrain], rfl,
    fun _ => by simp [sdaEdges, State.lines, Lines.step]⟩

theorem effect_SET_SCL_LOW (s : State) :
    Effect True s (SET_SCL_LOW s) [Event.pinMode Pin._scl Mode.OUTPUT] :=
  ⟨rfl, by simp [Event.openDrain], rfl,
    fun _ => by simp [sdaEdges, State.lines, Lines.step]⟩

theorem effect_delayMicroseconds (us : Nat) (s : State) :
    Effect True s (delayMicroseconds us s) [Event.delayMicroseconds us] :=
  ⟨rfl, by simp [Event.openDrain], rfl,
    fun _ => by simp [sdaEdges, State.lines, Lines.step]⟩

theorem effect_digitalWrite_LOW (p : Pin) (s : State) :
    Effect True s (digitalWrite p Level.LOW s) [Event.digitalWrite p Level.LOW] :=
  ⟨rfl, by simp [Event.openDrain], rfl,
    fun _ => by simp [sdaEdges, State.lines, Lines.step]⟩

theorem effect_digitalRead (env : Platform) (p : Pin) (s : State) :
    Effect True s (digitalRead env p s).2 [Event.digitalRead p (digitalRead env p s).1] := by
  cases p <;>
    exact ⟨rfl, by simp [Event.openDrain], rfl,
      fun _ => by simp [sdaEdges, State.lines, Lines.step]⟩

theorem effect_ClockStretch (env : Platform) (fuel : Nat) (s : State) (r : Option Bool)
    (s' : State) (h : ClockStretch env fuel s = (r, s')) :
    ∃ q, Quiet q ∧ Effect True s s' (q ++ marker r) := by
  obtain ⟨h1, h2, -, q, hq, ht⟩ := ClockStretch_run env fuel s r s' h
  refine ⟨q, hq, ⟨by rw [ht, List.append_assoc], ?_, ?_, ?_⟩⟩
  · intro e he
    rcases List.mem_append.mp he with h | h
    · exact hq.openDrain_all e h
    · cases r with
      | none => simp [marker] at h
      | some b => simp [marker] at h; subst h; rfl
  · rw [linesAfter_append, hq.linesAfter_eq]
    have : s'.lines = s.lines := by simp [State.lines, h1, h2]
    rw [this]
    cases r <;> rfl
  · intro _
    rw [sdaEdges_append, hq.sdaEdges_eq, hq.linesAfter_eq]
    cases r <;> simp [marker, sdaEdges, Lines.step]


theorem i2c_write_ack_effect (env : Platform) (fuel : Nat) (s : State) (r : Option Bool)
    (s' : State) (h : i2c_write_ack env fuel s = (r, s')) :
    ∃ t, Effect (s._scl_set = Level.LOW) s s' t ∧
      (Event.ClockStretch true ∉ t → r ≠ none → s'._scl_set = Level.LOW) := by
  simp only [i2c_write_ack] at h
  have hpre := effect_append (effect_append (effect_append (effect_SET_SDA_HIGH s)
    (effect_delayMicroseconds env.DELAY _) (fun _ => trivial))
    (effect_SET_SCL_HIGH _) (fun _ => trivial))
    (effect_delayMicroseconds (env.DELAY / 2) _) (fun _ => trivial)
  rcases hcs : ClockStretch env fuel
    (delayMicroseconds (env.DELAY / 2) (SET_SCL_HIGH (delayMicroseconds env.DELAY (SET_SDA_HIGH s))))
    with ⟨rc, sc⟩
  rw [hcs] at h
  obtain ⟨q, hq, hE⟩ := effect_ClockStretch _ _ _ _ _ hcs
  have hcs1 := effect_append hpre hE (fun _ => trivial)
  cases rc with
  | none =>
    simp only [Prod.mk.injEq] at h
    obtain ⟨rfl, rfl⟩ := h
    exact ⟨_, hcs1, fun _ hn => absurd rfl hn⟩
  | some b =>
    cases b with
    | true =>
      simp only [Prod.mk.injEq] at h
      obtain ⟨rfl, rfl⟩ := h
      exact ⟨_, hcs1, fun hn => absurd (by simp [marker]) hn⟩
    | false =>
      simp only [Prod.mk.injEq] at h
      obtain ⟨rfl, rfl⟩ := h
      exact ⟨_, effect_append (effect_append (effect_append hcs1
        (effect_digitalRead env Pin._sda sc) (fun _ => trivial))
        (effect_SET_SCL_LOW _) (fun _ => trivial))
        (effect_delayMicroseconds env.DELAY _) (fun _ => trivial), fun _ _ => rfl⟩

theorem i2c_write_loop_effect (env : Platform) (fuel : Nat) (value : Nat) :
    ∀ (n curr : Nat) (s : State) (r : Option Bool) (s' : State),
      i2c_write_loop env fuel value n curr s = (r, s') →
      ∃ t, Effect (s._scl_set = Level.LOW) s s' t ∧
        (Event.ClockStretch true ∉ t → r ≠ none → s'._scl_set = Level.LOW) := by
  intro n
  induction n with
  | zero =>
    intro curr s r s' h
    simp only [i2c_write_loop, Prod.mk.injEq] at h
    obtain ⟨rfl, rfl⟩ := h
    exact ⟨[], effect_nil _ _, fun _ hn => absurd rfl hn⟩
  | succ n ih =>
    intro curr s r s' h
    by_cases hcurr : curr ≠ 0
    · rw [i2c_write_loop, if_pos hcurr] at h
      simp only at h
      have hsda : ∃ m, Effect (s._scl_set = Level.LOW) s
          (if curr &&& value ≠ 0 then SET_SDA_HIGH s else SET_SDA_LOW s)
          [Event.pinMode Pin._sda m] := by
        by_cases hb : curr &&& value ≠ 0
        · rw [if_pos hb]; exact ⟨_, effect_SET_SDA_HIGH s⟩
        · rw [if_neg hb]; exact ⟨_, effect_SET_SDA_LOW s⟩
      obtain ⟨m, hm⟩ := hsda
      have hpre := effect_append (effect_append (effect_append hm
        (effect_delayMicroseconds env.DELAY _) (fun _ => trivial))
        (effect_SET_SCL_HIGH _) (fun _ => trivial))
        (effect_delayMicroseconds env.DELAY _) (fun _ => trivial)
      rcases hcs : ClockStretch env fuel (delayMicroseconds env.DELAY (SET_SCL_HIGH
        (delayMicroseconds env.DELAY
          (if curr &&& value ≠ 0 then SET_SDA_HIGH s else SET_SDA_LOW s)))) with ⟨rc, sc⟩
      rw [hcs] at h
      obtain ⟨q, hq, hE⟩ := effect_ClockStretch _ _ _ _ _ hcs
      have hcs1 := effect_append hpre hE (fun _ => trivial)
      cases rc with
      | none =>
        simp only [Prod.mk.injEq] at h
        obtain ⟨rfl, rfl⟩ := h
        exact ⟨_, hcs1, fun _ hn => absurd rfl hn⟩
      | some b =>
        cases b with
        | true =>
          simp only [Prod.mk.injEq] at h
          obtain ⟨rfl, rfl⟩ := h
          exact ⟨_, hcs1, fun hn => absurd (by simp [marker]) hn⟩
        | false =>
          obtain ⟨t, ht, hlow⟩ := ih _ _ _ _ h
          refine ⟨_, effect_append (effect_append hcs1 (effect_SET_SCL_LOW sc)
            (fun _ => trivial)) ht (fun _ => rfl), ?_⟩
          intro hno hr
          exact hlow (fun hc => hno (by simp [hc])) hr
    · rw [i2c_write_loop, if_neg hcurr] at h
      exact i2c_write_ack_effect env fuel s r s' h


theorem i2c_read_ack_effect (env : Platform) (fuel : Nat) ( last : Bool) (value : Nat)
    (s : State) (r : Option Nat) (s' : State)
    (h : i2c_read_ack env fuel last value s = (r, s')) :
    ∃ t, Effect (s._scl_set = Level.LOW) s s' t ∧
      (Event.ClockStretch true ∉ t → r ≠ none → s'._scl_set = Level.LOW) := by
  simp only [i2c_read_ack] at h
  have hsda : ∃ m, Effect (s._scl_set = Level.LOW) s
      (if last = true then SET_SDA_HIGH s else SET_SDA_LOW s) [Event.pinMode Pin._sda m] := by
    cases last
    · exact ⟨_, effect_SET_SDA_LOW s⟩
    · exact ⟨_, effect_SET_SDA_HIGH s⟩
  obtain ⟨m, hm⟩ := hsda
  have hpre := effect_append (effect_append hm
    (effect_SET_SCL_HIGH _) (fun _ => trivial))
    (effect_delayMicroseconds env.DELAY _) (fun _ => trivial)
  rcases hcs : ClockStretch env fuel (delayMicroseconds env.DELAY (SET_SCL_HIGH
    (if last = true then SET_SDA_HIGH s else SET_SDA_LOW s))) with ⟨rc, sc⟩
  rw [hcs] at h
  obtain ⟨q, hq, hE⟩ := effect_ClockStretch _ _ _ _ _ hcs
  have hcs1 := effect_append hpre hE (fun _ => trivial)
  cases rc with
  | none =>
    simp only [Prod.mk.injEq] at h
    obtain ⟨rfl, rfl⟩ := h
    exact ⟨_, hcs1, fun _ hn => absurd rfl hn⟩
  | some b =>
    cases b with
    | true =>
      simp only [Prod.mk.injEq] at h
      obtain ⟨rfl, rfl⟩ := h
      exact ⟨_, hcs1, fun hn => absurd (by simp [marker]) hn⟩
    | false =>
      simp only [Prod.mk.injEq] at h
      obtain ⟨rfl, rfl⟩ := h
      exact ⟨_, effect_append (effect_append hcs1
        (effect_SET_SCL_LOW _) (fun _ => trivial))
        (effect_delayMicroseconds env.DELAY _) (fun _ => trivial), fun _ _ => rfl⟩

theorem i2c_read_loop_effect (env : Platform) (fuel : Nat) ( last : Bool) :
    ∀ (n i value : Nat) (s : State) (r : Option Nat) (s' : State),
      i2c_read_loop env fuel last n i value s = (r, s') →
      ∃ t, Effect (s._scl_set = Level.LOW) s s' t ∧
        (Event.ClockStretch true ∉ t → r ≠ none → s'._scl_set = Level.LOW) := by
  intro n
  induction n with
  | zero =>
    intro i value s r s' h
    simp only [i2c_read_loop, Prod.mk.injEq] at h
    obtain ⟨rfl, rfl⟩ := h
    exact ⟨[], effect_nil _ _, fun _ hn => absurd rfl hn⟩
  | succ n ih =>
    intro i value s r s' h
    by_cases hi : i < 8
    · rw [i2c_read_loop, if_pos hi] at h
      simp only at h
      have hpre := effect_append (effect_SET_SCL_HIGH s)
        (effect_delayMicroseconds (env.DELAY / 2) _) (fun _ => trivial)
      rcases hcs : ClockStretch env fuel (delayMicroseconds (env.DELAY / 2) (SET_SCL_HIGH s))
        with ⟨rc, sc⟩
      rw [hcs] at h
      obtain ⟨q, hq, hE⟩ := effect_ClockStretch _ _ _ _ _ hcs
      have hcs1 := effect_append hpre hE (fun _ => trivial)
      cases rc with
      | none =>
        simp only [Prod.mk.injEq] at h
        obtain ⟨rfl, rfl⟩ := h
        exact ⟨_, effect_weaken hcs1 (fun _ => trivial), fun _ hn => absurd rfl hn⟩
      | some b =>
        cases b with
        | true =>
          simp only [Prod.mk.injEq] at h
          obtain ⟨rfl, rfl⟩ := h
          exact ⟨_, effect_weaken hcs1 (fun _ => trivial),
            fun hn => absurd (by simp [marker]) hn⟩
        | false =>
          obtain ⟨t, ht, hlow⟩ := ih _ _ _ _ _ h
          refine ⟨_, effect_weaken (effect_append (effect_append (effect_append
            (effect_append hcs1 (effect_digitalRead env Pin._sda sc) (fun _ => trivial))
            (effect_SET_SCL_LOW _) (fun _ => trivial))
            (effect_delayMicroseconds env.DELAY _) (fun _ => trivial)) ht (fun _ => rfl))
            (fun _ => trivial), ?_⟩
          intro hno hr
          exact hlow (fun hc => hno (by simp [hc])) hr
    · rw [i2c_read_loop, if_neg hi] at h
      exact i2c_read_ack_effect env fuel last value s r s' h

theorem i2c_write_effect (env : Platform) (fuel value : Nat) (s : State) :
    ∃ t, Effect (s._scl_set = Level.LOW) s (i2c_write env fuel value s).2 t ∧
      (Event.ClockStretch true ∉ t → (i2c_write env fuel value s).1 ≠ none →
        (i2c_write env fuel value s).2._scl_set = Level.LOW) :=
  i2c_write_loop_effect env fuel value fuel 0x80 s _ _ rfl

theorem i2c_read_effect (env : Platform) (fuel : Nat) ( last : Bool) (s : State) :
    ∃ t, Effect (s._scl_set = Level.LOW) s (i2c_read env fuel last s).2 t ∧
      (Event.ClockStretch true ∉ t → (i2c_read env fuel last s).1 ≠ none →
        (i2c_read env fuel last s).2._scl_set = Level.LOW) := by
  obtain ⟨t, ht, hlow⟩ := i2c_read_loop_effect env fuel last fuel 0 0
    (delayMicroseconds env.DELAY (SET_SDA_HIGH s)) _ _ rfl
  refine ⟨_, effect_append (effect_append (effect_SET_SDA_HIGH s)
    (effect_delayMicroseconds env.DELAY _) (fun _ => trivial)) ht (fun h => h), ?_⟩
  intro hno hr
  exact hlow (fun hc => hno (by simp [hc])) hr

theorem i2c_stop_effect (env : Platform) (s : State) :
    ∃ t, Effect False s (i2c_stop env s) t ∧
      sdaEdges s.lines t
        = [(({ sda := Level.LOW, scl := Level.HIGH } : Lines),
            ({ sda := Level.HIGH, scl := Level.HIGH } : Lines))] ∧
      (∀ e ∈ t, e.isCommand = true) := by
  obtain ⟨a, b, n1, n2, n3, tr⟩ := s
  cases a <;> cases b
  · exact ⟨[Event.pinMode Pin._scl Mode.INPUT, Event.delayMicroseconds env.DELAY,
        Event.pinMode Pin._sda Mode.INPUT, Event.delayMicroseconds (env.DELAY * 2)],
      ⟨by simp [i2c_stop, delayMicroseconds, SET_SCL_HIGH, SET_SDA_HIGH, pinMode, emit],
        by simp [Event.openDrain], rfl, fun h => h.elim⟩,
      by simp [sdaEdges, Lines.step, State.lines, Mode.level], by simp [Event.isCommand]⟩
  · exact ⟨[Event.pinMode Pin._sda Mode.INPUT, Event.delayMicroseconds (env.DELAY * 2)],
      ⟨by simp [i2c_stop, delayMicroseconds, SET_SDA_HIGH, pinMode, emit],
        by simp [Event.openDrain], rfl, fun h => h.elim⟩,
      by simp [sdaEdges, Lines.step, State.lines, Mode.level], by simp [Event.isCommand]⟩
  · exact ⟨[Event.pinMode Pin._sda Mode.OUTPUT, Event.delayMicroseconds env.DELAY,
        Event.pinMode Pin._scl Mode.INPUT, Event.delayMicroseconds env.DELAY,
        Event.pinMode Pin._sda Mode.INPUT, Event.delayMicroseconds (env.DELAY * 2)],
      ⟨by simp [i2c_stop, delayMicroseconds, SET_SCL_HIGH, SET_SDA_HIGH, SET_SDA_LOW,
          pinMode, emit],
        by simp [Event.openDrain], rfl, fun h => h.elim⟩,
      by simp [sdaEdges, Lines.step, State.lines, Mode.level], by simp [Event.isCommand]⟩
  · exact ⟨[Event.pinMode Pin._scl Mode.OUTPUT, Event.delayMicroseconds env.DELAY,
        Event.pinMode Pin._sda Mode.OUTPUT, Event.delayMicroseconds env.DELAY,
        Event.pinMode Pin._scl Mode.INPUT, Event.delayMicroseconds env.DELAY,
        Event.pinMode Pin._sda Mode.INPUT, Event.delayMicroseconds (env.DELAY * 2)],
      ⟨by simp [i2c_stop, delayMicroseconds, SET_SCL_HIGH, SET_SCL_LOW, SET_SDA_HIGH,
          SET_SDA_LOW, pinMode, emit],
        by simp [Event.openDrain], rfl, fun h => h.elim⟩,
      by simp [sdaEdges, Lines.step, State.lines, Mode.level], by simp [Event.isCommand]⟩


/-- The start condition made by `i2c_start` before it hands over to
`i2c_write`: the state `s5` it reaches and the trace `p` it adds.  Unless it is
entered with SDA tracked low and SCL tracked released, SDA falls exactly once
while SCL is commanded released; entered in that state, SDA does not change. -/
theorem i2c_start_prelude (env : Platform) (fuel addr : Nat) (s : State) :
    ∃ s5 p, i2c_start env fuel addr s = i2c_write env fuel addr s5 ∧
      Effect False s s5 p ∧ s5._scl_set = Level.LOW ∧ (∀ e ∈ p, e.isCommand = true) ∧
      ((s._scl_set = Level.HIGH → s._sda_set = Level.HIGH) →
        sdaEdges s.lines p
          = [(({ sda := Level.HIGH, scl := Level.HIGH } : Lines),
              ({ sda := Level.LOW, scl := Level.HIGH } : Lines))]) ∧
      (s._sda_set = Level.LOW → s._scl_set = Level.HIGH → sdaEdges s.lines p = []) := by
  obtain ⟨a, b, n1, n2, n3, tr⟩ := s
  cases a <;> cases b
  · refine ⟨SET_SCL_LOW (delayMicroseconds env.DELAY (SET_SDA_LOW (delayMicroseconds env.DELAY
        (SET_SCL_HIGH (delayMicroseconds env.DELAY (SET_SDA_HIGH (delayMicroseconds env.DELAY
        (State.mk Level.LOW Level.LOW n1 n2 n3 tr)))))))),
      [Event.delayMicroseconds env.DELAY, Event.pinMode Pin._sda Mode.INPUT,
        Event.delayMicroseconds env.DELAY, Event.pinMode Pin._scl Mode.INPUT,
        Event.delayMicroseconds env.DELAY, Event.pinMode Pin._sda Mode.OUTPUT,
        Event.delayMicroseconds env.DELAY, Event.pinMode Pin._scl Mode.OUTPUT],
      by simp only [i2c_start]; rfl,
      ⟨by simp [delayMicroseconds, SET_SCL_HIGH, SET_SCL_LOW, SET_SDA_HIGH, SET_SDA_LOW,
          pinMode, emit],
        by simp [Event.openDrain], rfl, fun h => h.elim⟩, rfl, by simp [Event.isCommand],
      fun _ => by simp [sdaEdges, Lines.step, State.lines, Mode.level],
      fun _ h => by simp at h⟩
  · refine ⟨SET_SCL_LOW (delayMicroseconds env.DELAY (SET_SDA_LOW (delayMicroseconds env.DELAY
        (State.mk Level.LOW Level.HIGH n1 n2 n3 tr)))),
      [Event.delayMicroseconds env.DELAY, Event.pinMode Pin._sda Mode.OUTPUT,
        Event.delayMicroseconds env.DELAY, Event.pinMode Pin._scl Mode.OUTPUT],
      by simp only [i2c_start]; rfl,
      ⟨by simp [delayMicroseconds, SET_SCL_LOW, SET_SDA_LOW, pinMode, emit],
        by simp [Event.openDrain], rfl, fun h => h.elim⟩, rfl, by simp [Event.isCommand],
      fun h => by simp at h,
      fun _ _ => by simp [sdaEdges, Lines.step, State.lines, Mode.level]⟩
  · refine ⟨SET_SCL_LOW (delayMicroseconds env.DELAY (SET_SDA_LOW (delayMicroseconds env.DELAY
        (SET_SCL_HIGH (delayMicroseconds env.DELAY
        (State.mk Level.HIGH Level.LOW n1 n2 n3 tr)))))),
      [Event.delayMicroseconds env.DELAY, Event.pinMode Pin._scl Mode.INPUT,
        Event.delayMicroseconds env.DELAY, Event.pinMode Pin._sda Mode.OUTPUT,
        Event.delayMicroseconds env.DELAY, Event.pinMode Pin._scl Mode.OUTPUT],
      by simp only [i2c_start]; rfl,
      ⟨by simp [delayMicroseconds, SET_SCL_HIGH, SET_SCL_LOW, SET_SDA_LOW, pinMode, emit],
        by simp [Event.openDrain], rfl, fun h => h.elim⟩, rfl, by simp [Event.isCommand],
      fun _ => by simp [sdaEdges, Lines.step, State.lines, Mode.level],
      fun h => by simp at h⟩
  · refine ⟨SET_SCL_LOW (delayMicroseconds env.DELAY (SET_SDA_LOW (delayMicroseconds env.DELAY
        (State.mk Level.HIGH Level.HIGH n1 n2 n3 tr)))),
      [Event.delayMicroseconds env.DELAY, Event.pinMode Pin._sda Mode.OUTPUT,
        Event.delayMicroseconds env.DELAY, Event.pinMode Pin._scl Mode.OUTPUT],
      by simp only [i2c_start]; rfl,
      ⟨by simp [delayMicroseconds, SET_SCL_LOW, SET_SDA_LOW, pinMode, emit],
        by simp [Event.openDrain], rfl, fun h => h.elim⟩, rfl, by simp [Event.isCommand],
      fun _ => by simp [sdaEdges, Lines.step, State.lines, Mode.level],
      fun h => by simp at h⟩

theorem i2c_start_effect (env : Platform) (fuel addr : Nat) (s : State) :
    ∃ t, Effect False s (i2c_start env fuel addr s).2 t ∧
      ((s._scl_set = Level.HIGH → s._sda_set = Level.HIGH) →
        sdaEdges s.lines t
          = [(({ sda := Level.HIGH, scl := Level.HIGH } : Lines),
              ({ sda := Level.LOW, scl := Level.HIGH } : Lines))]) ∧
      (Event.ClockStretch true ∉ t → (i2c_start env fuel addr s).1 ≠ none →
        (i2c_start env fuel addr s).2._scl_set = Level.LOW) := by
  obtain ⟨s5, p, heq, hp, hlow5, hcmd, hedge, -⟩ := i2c_start_prelude env fuel addr s
  obtain ⟨tw, htw, hlow⟩ := i2c_write_effect env fuel addr s5
  rw [heq]
  refine ⟨p ++ tw, effect_append hp (effect_weaken htw (fun h => h.elim)) (fun h => h), ?_, ?_⟩
  · intro hinv
    rw [sdaEdges_append, hp.lines, htw.edges hlow5, hedge hinv]
    rfl
  · intro hno hr
    exact hlow (fun hc => hno (by simp [hc])) hr

theorem i2c_init_check_effect (env : Platform) (s : State) :
    ∃ t, Effect False s (i2c_init_check env s).2 t := by
  obtain ⟨t, ht, -, -⟩ := i2c_stop_effect env s
  have h1 := effect_digitalRead env Pin._sda (i2c_stop env s)
  have h2 := effect_digitalRead env Pin._scl (digitalRead env Pin._sda (i2c_stop env s)).2
  simp only [i2c_init_check]
  cases ha : (digitalRead env Pin._sda (i2c_stop env s)).1 with
  | LOW =>
    have : (match digitalRead env Pin._sda (i2c_stop env s) with
        | (Level.LOW, s2) => ((some false : Option Bool), s2)
        | (Level.HIGH, s2) =>
          match digitalRead env Pin._scl s2 with
          | (Level.LOW, s3) => (some false, s3)
          | (Level.HIGH, s3) => (some true, s3)).2
        = (digitalRead env Pin._sda (i2c_stop env s)).2 := by
      rcases hd : digitalRead env Pin._sda (i2c_stop env s) with ⟨l, s2⟩
      rw [hd] at ha
      simp only at ha
      subst ha
      rfl
    rw [this]
    exact ⟨_, effect_append ht (effect_weaken h1 (fun h => h.elim)) (fun h => h)⟩
  | HIGH =>
    have : (match digitalRead env Pin._sda (i2c_stop env s) with
        | (Level.LOW, s2) => ((some false : Option Bool), s2)
        | (Level.HIGH, s2) =>
          match digitalRead env Pin._scl s2 with
          | (Level.LOW, s3) => (some false, s3)
          | (Level.HIGH, s3) => (some true, s3)).2
        = (digitalRead env Pin._scl (digitalRead env Pin._sda (i2c_stop env s)).2).2 := by
      rcases hd : digitalRead env Pin._sda (i2c_stop env s) with ⟨l, s2⟩
      rw [hd] at ha
      simp only at ha
      subst ha
      simp only
      rcases hd2 : digitalRead env Pin._scl s2 with ⟨l2, s3⟩
      cases l2 <;> rfl
    rw [this]
    exact ⟨_, effect_append (effect_append ht (effect_weaken h1 (fun h => h.elim)) (fun h => h))
      (effect_weaken h2 (fun h => h.elim)) (fun h => h)⟩

theorem i2c_init_loop_effect (env : Platform) : ∀ (n i : Nat) (s : State),
    ∃ t, Effect False s (i2c_init_loop env n i s).2 t := by
  intro n
  induction n with
  | zero => intro i s; exact ⟨[], effect_nil _ _⟩
  | succ n ih =>
    intro i s
    by_cases hi : i < 28
    · rw [i2c_init_loop, if_pos hi]
      obtain ⟨t, ht⟩ := ih ((i + 1) % 256) (delayMicroseconds env.DELAY (SET_SCL_HIGH
        (delayMicroseconds env.DELAY (SET_SCL_LOW s))))
      exact ⟨_, effect_append (effect_weaken (effect_append (effect_append (effect_append
        (effect_SET_SCL_LOW s) (effect_delayMicroseconds env.DELAY _) (fun h => h))
        (effect_SET_SCL_HIGH _) (fun h => h))
        (effect_delayMicroseconds env.DELAY _) (fun h => h)) (fun h => h.elim)) ht (fun h => h)⟩
    · rw [i2c_init_loop, if_neg hi]
      exact i2c_init_check_effect env s

theorem i2c_init_effect (env : Platform) (fuel : Nat) (s : State) :
    ∃ t, Effect False s (i2c_init env fuel s).2 t := by
  obtain ⟨t, ht⟩ := i2c_init_loop_effect env fuel 0 (delayMicroseconds env.DELAY (SET_SDA_HIGH
    (digitalWrite Pin._sda Level.LOW (digitalWrite Pin._scl Level.LOW
      (SET_SDA_LOW (SET_SCL_LOW s))))))
  exact ⟨_, effect_append (effect_weaken (effect_append (effect_append (effect_append
    (effect_append (effect_append (effect_SET_SCL_LOW s)
      (effect_weaken (effect_SET_SDA_LOW _) (fun _ => rfl)) (fun h => h))
      (effect_digitalWrite_LOW Pin._scl _) (fun h => h))
      (effect_digitalWrite_LOW Pin._sda _) (fun h => h))
      (effect_weaken (effect_SET_SDA_HIGH _) (fun _ => rfl)) (fun h => h))
      (effect_delayMicroseconds env.DELAY _) (fun h => h)) (fun h => h.elim)) ht (fun h => h)⟩


theorem openDrain_iff (e : Event) :
    e.openDrain = true ↔ ∀ p v, e = Event.digitalWrite p v → v = Level.LOW := by
  cases e with
  | digitalWrite p v => cases v <;> simp [Event.openDrain]
  | _ => simp [Event.openDrain]

theorem Effect.kept {c : Prop} {s s' : State} {t : List Event} (h : Effect c s s' t) :
    OpenDrainKept s s' := by
  refine ⟨t, h.trace, ?_, h.lines⟩
  intro p v hmem
  exact (openDrain_iff _).mp (h.openDrain _ hmem) p v rfl

/-! ## Line discipline (C11 to C13) -/

/-- C11: the open-drain emulation is never violated.  For each of `i2c_init`,
`i2c_start`, `i2c_rep_start`, `i2c_stop`, `i2c_write`, `i2c_read` and
`ClockStretch`, for every bus, fuel, argument and prior state, the trace the
operation adds (complete or cut short by the fuel) holds no write of `HIGH` to
a pin, the only level written being `LOW`, and the line states tracked follow
the pin modes: a line is made high only by `pinMode(pin, INPUT)`. -/
theorem open_drain_never_violated (env : Platform) (fuel value addr : Nat) ( last : Bool)
    (s : State) :
    OpenDrainKept s (i2c_init env fuel s).2 ∧
    OpenDrainKept s (i2c_start env fuel addr s).2 ∧
    OpenDrainKept s (i2c_rep_start env fuel addr s).2 ∧
    OpenDrainKept s (i2c_stop env s) ∧
    OpenDrainKept s (i2c_write env fuel value s).2 ∧
    OpenDrainKept s (i2c_read env fuel last s).2 ∧
    OpenDrainKept s (ClockStretch env fuel s).2 := by
  obtain ⟨t1, h1⟩ := i2c_init_effect env fuel s
  obtain ⟨t2, h2, -, -⟩ := i2c_start_effect env fuel addr s
  obtain ⟨t3, h3, -, -⟩ := i2c_stop_effect env s
  obtain ⟨t4, h4, -⟩ := i2c_write_effect env fuel value s
  obtain ⟨t5, h5, -⟩ := i2c_read_effect env fuel last s
  obtain ⟨q, -, h6⟩ := effect_ClockStretch env fuel s _ _ rfl
  exact ⟨h1.kept, h2.kept, h2.kept, h3.kept, h4.kept, h5.kept, h6.kept⟩

theorem i2c_init_tracked (env : Platform) (fuel : Nat) (s : State) :
    (i2c_init env (fuel + 29) s).2._sda_set = Level.HIGH ∧
      (i2c_init env (fuel + 29) s).2._scl_set = Level.HIGH := by
  rw [i2c_init_eq]
  simp only [digitalRead, emit]
  cases ha : env.sda s.sdaReads <;> cases hb : env.scl s.sclReads <;> simp [ha, hb]

/-- What one call does, whatever the state it is made in: the trace it adds,
the SDA changes it makes while SCL is commanded released when the state is not
(SDA low, SCL released), and SCL tracked low at the return of every call other
than a stop that had no timeout. -/
theorem Op.run_effect (env : Platform) (fuel : Nat) (op : Op) (s : State)
    (ha : op.allowed s) :
    ∃ t, (op.run env fuel s).2.trace = s.trace ++ t ∧
      ((s._scl_set = Level.HIGH → s._sda_set = Level.HIGH) → sdaEdges s.lines t = op.edges) ∧
      (op ≠ Op.stop → Event.ClockStretch true ∉ t → (op.run env fuel s).1 = true →
        (op.run env fuel s).2._scl_set = Level.LOW) := by
  cases op with
  | start addr =>
    obtain ⟨t, ht, hedge, hlow⟩ := i2c_start_effect env fuel addr s
    refine ⟨t, ht.trace, hedge, fun _ hno hret => hlow hno ?_⟩
    intro hc
    simp [Op.run, hc] at hret
  | rep_start addr =>
    obtain ⟨t, ht, hedge, hlow⟩ := i2c_start_effect env fuel addr s
    refine ⟨t, ht.trace, hedge, fun _ hno hret => hlow hno ?_⟩
    intro hc
    simp [Op.run, i2c_rep_start, hc] at hret
  | stop =>
    obtain ⟨t, ht, hedge, -⟩ := i2c_stop_effect env s
    exact ⟨t, ht.trace, fun _ => hedge, fun h => absurd rfl h⟩
  | write value =>
    obtain ⟨t, ht, hlow⟩ := i2c_write_effect env fuel value s
    refine ⟨t, ht.trace, fun _ => ht.edges ha, fun _ hno hret => hlow hno ?_⟩
    intro hc
    simp [Op.run, hc] at hret
  | read last =>
    obtain ⟨t, ht, hlow⟩ := i2c_read_effect env fuel last s
    refine ⟨t, ht.trace, fun _ => ht.edges ha, fun _ hno hret => hlow hno ?_⟩
    intro hc
    simp [Op.run, hc] at hret

/-- A reachable state is never (SDA tracked low, SCL tracked released). -/
theorem Reachable.idle_or_held {env : Platform} {s : State} (h : Reachable env s) :
    s._scl_set = Level.HIGH → s._sda_set = Level.HIGH := by
  induction h with
  | init fuel s0 => intro _; exact (i2c_init_tracked env fuel s0).1
  | call s op fuel t _ ha hret ht hno _ =>
    intro hscl
    by_cases hop : op = Op.stop
    · subst hop
      exact (i2c_stop_tracked env s).1
    · obtain ⟨t', ht', -, hlow⟩ := Op.run_effect env fuel op s ha
      have htt : t' = t := List.append_cancel_left (ht'.symm.trans ht)
      subst htt
      have := hlow hop hno hret
      rw [this] at hscl
      exact absurd hscl (by decide)

/-- C12: the bus protocol invariant.  Take any state reached from the one
`i2c_init` leaves by calls of `i2c_start`, `i2c_rep_start`, `i2c_stop`,
`i2c_write` and `i2c_read` that all returned with no `ClockStretch` timeout,
`i2c_write` and `i2c_read` being called only with SCL tracked low.  In the next
such call (complete or not), the changes of SDA made while SCL is commanded
released are exactly one fall from released to low in a start (START), exactly
one rise from low to released in a stop (STOP) and none in a byte transfer, so
every other change of SDA is made while SCL is commanded low; and every call
but a stop that returns with no timeout, `i2c_write` and `i2c_read` among them,
leaves SCL tracked driven low. -/
theorem sda_changes_only_at_start_and_stop (env : Platform) (fuel : Nat) (op : Op)
    (s : State) (hs : Reachable env s) (ha : op.allowed s) :
    ∃ t, (op.run env fuel s).2.trace = s.trace ++ t ∧
      sdaEdges s.lines t = op.edges ∧
      (op ≠ Op.stop → Event.ClockStretch true ∉ t → (op.run env fuel s).1 = true →
        (op.run env fuel s).2._scl_set = Level.LOW) := by
  obtain ⟨t, ht, hedge, hlow⟩ := Op.run_effect env fuel op s ha
  exact ⟨t, ht, hedge hs.idle_or_held, hlow⟩


/-- Witness for C12: the `i2c_start(0xA0)` that follows `i2c_init` on a
pulled-up bus. -/
theorem sda_changes_only_at_start_and_stop_witness :
    ∃ t, (Op.run pulledUpBus 9 (Op.start 0xA0)
          (i2c_init pulledUpBus (0 + 29) idleState).2).2.trace
        = (i2c_init pulledUpBus (0 + 29) idleState).2.trace ++ t ∧
      sdaEdges (i2c_init pulledUpBus (0 + 29) idleState).2.lines t = (Op.start 0xA0).edges ∧
      (Op.start 0xA0 ≠ Op.stop → Event.ClockStretch true ∉ t →
        (Op.run pulledUpBus 9 (Op.start 0xA0)
          (i2c_init pulledUpBus (0 + 29) idleState).2).1 = true →
        (Op.run pulledUpBus 9 (Op.start 0xA0)
          (i2c_init pulledUpBus (0 + 29) idleState).2).2._scl_set = Level.LOW) :=
  sda_changes_only_at_start_and_stop pulledUpBus 9 (Op.start 0xA0)
    (i2c_init pulledUpBus (0 + 29) idleState).2 (Reachable.init 0 idleState) trivial


/-- A byte write returns true exactly when its trace holds a read of SDA that
gave `LOW`: the acknowledge sample, taken only when no `ClockStretch` timed
out. -/
theorem i2c_write_acknowledged (env : Platform) (fuel v : Nat) (s : State) (t : List Event)
    (ht : (i2c_write env fuel v s).2.trace = s.trace ++ t) :
    (i2c_write env fuel v s).1 = some true ↔ Event.digitalRead Pin._sda Level.LOW ∈ t := by
  obtain ⟨t', ht', hrun, -, -⟩ := i2c_write_run env fuel v s
  have htt : t' = t := List.append_cancel_left (ht'.symm.trans ht)
  subst htt
  generalize (i2c_write env fuel v s).1 = r at hrun
  cases hrun with
  | stuck t hc =>
    have h2 := hc.not_mem_read Level.LOW
    simp [h2]
  | timeout t0 hc =>
    have h2 := hc.not_mem_read Level.LOW
    simp [h2]
  | done t0 hc hn b hb =>
    have h2 := hc.not_mem_read Level.LOW
    subst hb
    cases ha : env.sda s.sdaReads <;> simp [h2]

/-- C13: for every `addr`, tracked line state, bus and fuel, `i2c_rep_start`
gives what `i2c_start` gives: the same return value and the same final state,
trace of calls and tracked line states included.  That value is the one
`i2c_write(addr)` returns when run from the state `s5` the start condition
leaves (reached by the line commands `p`): true exactly when the acknowledge
sample of SDA read `LOW` in the trace `tw` of that write. -/
theorem rep_start_same_as_start (env : Platform) (fuel addr : Nat) (s : State) :
    i2c_rep_start env fuel addr s = i2c_start env fuel addr s ∧
    ∃ s5 p tw, i2c_start env fuel addr s = i2c_write env fuel addr s5 ∧
      s5.trace = s.trace ++ p ∧ (∀ e ∈ p, e.isCommand = true) ∧
      (i2c_write env fuel addr s5).2.trace = s5.trace ++ tw ∧
      ((i2c_rep_start env fuel addr s).1 = some true ↔
        Event.digitalRead Pin._sda Level.LOW ∈ tw) := by
  refine ⟨rfl, ?_⟩
  obtain ⟨s5, p, heq, hp, -, hcmd, -, -⟩ := i2c_start_prelude env fuel addr s
  obtain ⟨tw, htw, -⟩ := i2c_write_run env fuel addr s5
  refine ⟨s5, p, tw, heq, hp.trace, hcmd, htw, ?_⟩
  have : (i2c_rep_start env fuel addr s).1 = (i2c_write env fuel addr s5).1 := by
    rw [← heq]; rfl
  rw [this]
  exact i2c_write_acknowledged env fuel addr s5 tw htw

/-! ## The timeout sentinel of `i2c_read` (C14) -/

/-- C14: the value `i2c_read` returns on a timeout is ambiguous.  For each
value of `last` there are two runs from the same state, one on a bus whose
slave presents eight 1 bits and where no `ClockStretch` times out, one on a bus
where a `ClockStretch` times out, that both return 0xFF; so no function of the
return value tells them apart. -/
theorem read_timeout_sentinel_ambiguous ( last : Bool) :
    ∃ (bus1 bus2 : Platform) (fuel : Nat) (s : State) (t1 t2 : List Event),
      (i2c_read bus1 fuel last s).2.trace = s.trace ++ t1 ∧
      Event.ClockStretch true ∉ t1 ∧
      (∀ i, i < 8 → bus1.sda (s.sdaReads + i) = Level.HIGH) ∧
      (i2c_read bus1 fuel last s).1 = some 0xFF ∧
      (i2c_read bus2 fuel last s).2.trace = s.trace ++ t2 ∧
      Event.ClockStretch true ∈ t2 ∧
      (i2c_read bus2 fuel last s).1 = some 0xFF ∧
      ∀ detect : Option Nat → Bool,
        detect (i2c_read bus1 fuel last s).1 = detect (i2c_read bus2 fuel last s).1 := by
  cases last
  · exact ⟨echoBus 0xFF, stuckBus, 9, idleState, (i2c_read (echoBus 0xFF) 9 false idleState).2.trace,
      (i2c_read stuckBus 9 false idleState).2.trace, rfl, by decide, by decide, by decide, rfl,
      by decide, by decide, fun _ => rfl⟩
  · exact ⟨echoBus 0xFF, stuckBus, 9, idleState, (i2c_read (echoBus 0xFF) 9 true idleState).2.trace,
      (i2c_read stuckBus 9 true idleState).2.trace, rfl, by decide, by decide, by decide, rfl,
      by decide, by decide, fun _ => rfl⟩


/-! ## The waiting policy of `ClockStretch` (C15, C16, C18) -/

theorem ClockStretch_loop_stuck (env : Platform) (T1 T2 c0 M : Nat) (hT : T1 ≤ T2)
    (hscl : ∀ k, env.scl k = Level.LOW)
    (hmono : ∀ i j, c0 ≤ i → i ≤ j → env.clock i % 2 ^ 32 ≤ env.clock j % 2 ^ 32)
    (hM : c0 ≤ M) (hreach : T2 ≤ env.clock M % 2 ^ 32) :
    ∀ (m : Nat) (s : State), c0 ≤ s.clockReads → M < s.clockReads + m →
      ∃ s' pre r1 r2, ClockStretch_loop env T1 T2 (m + 1) s = (some true, s') ∧
        s'.trace = s.trace ++ pre ++ [Event.digitalRead Pin._scl Level.LOW, Event.millis r1,
          Event.millis r2, Event.ClockStretch true] ∧
        T2 ≤ r2 ∧ ∀ x, Event.millis x ∈ pre → x < T2 := by
  intro m
  induction m with
  | zero =>
    intro s hc hm
    have h1 : T2 ≤ env.clock s.clockReads % 2 ^ 32 :=
      le_trans hreach (hmono M s.clockReads hM (by omega))
    have h2 : T2 ≤ env.clock (s.clockReads + 1) % 2 ^ 32 :=
      le_trans hreach (hmono M (s.clockReads + 1) hM (by omega))
    have hrun : ClockStretch_loop env T1 T2 (0 + 1) s
        = (some true, (ClockStretch_loop env T1 T2 (0 + 1) s).2) := by
      simp only [ClockStretch_loop, digitalRead, millis, hscl, emit]
      rw [if_neg (by omega), if_neg (by omega)]
    refine ⟨(ClockStretch_loop env T1 T2 (0 + 1) s).2, [], env.clock s.clockReads % 2 ^ 32,
      env.clock (s.clockReads + 1) % 2 ^ 32, hrun, ?_, h2, by simp⟩
    simp only [ClockStretch_loop, digitalRead, millis, hscl, emit]
    rw [if_neg (by omega), if_neg (by omega)]
    simp
  | succ m ih =>
    intro s hc hm
    rw [ClockStretch_loop]
    simp only [digitalRead, millis, hscl, emit]
    by_cases hb : T1 > env.clock s.clockReads % 2 ^ 32
    · rw [if_pos hb]
      obtain ⟨s', pre, r1, r2, hrun, htr, hr2, hpre⟩ := ih
        { s with sclReads := s.sclReads + 1,
                 clockReads := s.clockReads + 1,
                 trace := s.trace ++ [Event.digitalRead Pin._scl Level.LOW]
                   ++ [Event.millis (env.clock s.clockReads % 2 ^ 32)] }
        (by simp; omega) (by simp; omega)
      refine ⟨s', [Event.digitalRead Pin._scl Level.LOW,
        Event.millis (env.clock s.clockReads % 2 ^ 32)] ++ pre, r1, r2, hrun, ?_, hr2, ?_⟩
      · rw [htr]; simp
      · intro x hx
        simp only [List.mem_append, List.mem_cons, List.mem_singleton, List.not_mem_nil,
          or_false, reduceCtorEq, false_or, Event.millis.injEq] at hx
        rcases hx with rfl | hx
        · omega
        · exact hpre x hx
    · rw [if_neg hb]
      by_cases hd : T2 > env.clock (s.clockReads + 1) % 2 ^ 32
      · rw [if_pos hd]
        have hle := hmono s.clockReads (s.clockReads + 1) hc (by omega)
        obtain ⟨s', pre, r1, r2, hrun, htr, hr2, hpre⟩ := ih
          (delay 1 { s with sclReads := s.sclReads + 1,
                            clockReads := s.clockReads + 1 + 1,
                            trace := s.trace ++ [Event.digitalRead Pin._scl Level.LOW]
                              ++ [Event.millis (env.clock s.clockReads % 2 ^ 32)]
                              ++ [Event.millis (env.clock (s.clockReads + 1) % 2 ^ 32)] })
          (by simp [delay, emit]; omega) (by simp [delay, emit]; omega)
        refine ⟨s', [Event.digitalRead Pin._scl Level.LOW,
          Event.millis (env.clock s.clockReads % 2 ^ 32),
          Event.millis (env.clock (s.clockReads + 1) % 2 ^ 32), Event.delay 1] ++ pre,
          r1, r2, hrun, ?_, hr2, ?_⟩
        · rw [htr]; simp [delay, emit]
        · intro x hx
          simp only [List.mem_append, List.mem_cons, List.mem_singleton, List.not_mem_nil,
            or_false, reduceCtorEq, false_or, Event.millis.injEq] at hx
          rcases hx with (rfl | rfl) | hx
          · omega
          · omega
          · exact hpre x hx
      · rw [if_neg hd]
        exact ⟨_, [], env.clock s.clockReads % 2 ^ 32, env.clock (s.clockReads + 1) % 2 ^ 32,
          rfl, by simp, by omega, by simp⟩

/-- C15: `ClockStretch` cannot block for ever on a stuck bus.  Let the entry
reading `t0` have `t0 + 3002` below `2^32`, the clock readings from the entry
on be non-decreasing and the `N`-th reading after the entry be at least
`t0 + 3002`, and let SCL read low at every poll.  Then with fuel for `N + 2`
passes `ClockStretch` returns 1 (timeout), in a pass whose deciding clock
reading `r2` is at least `t0 + 3002`, every clock reading of the passes before
it (`pre`) being below `t0 + 3002`. -/
theorem ClockStretch_times_out_on_stuck_bus (env : Platform) (s : State) (N fuel : Nat)
    (hw : env.clock s.clockReads % 2 ^ 32 + 3002 < 2 ^ 32)
    (hmono : ∀ i j, s.clockReads ≤ i → i ≤ j → env.clock i % 2 ^ 32 ≤ env.clock j % 2 ^ 32)
    (hreach : env.clock s.clockReads % 2 ^ 32 + 3002 ≤ env.clock (s.clockReads + N) % 2 ^ 32)
    (hscl : ∀ k, env.scl k = Level.LOW) (hfuel : N + 2 ≤ fuel) :
    ∃ s' pre r1 r2, ClockStretch env fuel s = (some true, s') ∧
      s'.trace = s.trace ++ [Event.millis (env.clock s.clockReads % 2 ^ 32)] ++ pre
        ++ [Event.digitalRead Pin._scl Level.LOW, Event.millis r1, Event.millis r2,
          Event.ClockStretch true] ∧
      env.clock s.clockReads % 2 ^ 32 + 3002 ≤ r2 ∧
      ∀ x, Event.millis x ∈ pre → x < env.clock s.clockReads % 2 ^ 32 + 3002 := by
  obtain ⟨m, rfl⟩ : ∃ m, fuel = m + 1 := ⟨fuel - 1, by omega⟩
  have h1 : (2 + env.clock s.clockReads % 2 ^ 32) % 2 ^ 32
      = env.clock s.clockReads % 2 ^ 32 + 2 := by
    rw [Nat.mod_eq_of_lt (by omega)]; omega
  have h2 : (3000 + (env.clock s.clockReads % 2 ^ 32 + 2)) % 2 ^ 32
      = env.clock s.clockReads % 2 ^ 32 + 3002 := by
    rw [Nat.mod_eq_of_lt (by omega)]; omega
  obtain ⟨s', pre, r1, r2, hrun, htr, hr2, hpre⟩ := ClockStretch_loop_stuck env
    (env.clock s.clockReads % 2 ^ 32 + 2) (env.clock s.clockReads % 2 ^ 32 + 3002)
    s.clockReads (s.clockReads + N) (by omega) hscl hmono (by omega) hreach m
    (millis env s).2 (by simp [millis, emit]) (by simp [millis, emit]; omega)
  refine ⟨s', pre, r1, r2, ?_, ?_, hr2, hpre⟩
  · have e1 : (millis env s).1 = env.clock s.clockReads % 2 ^ 32 := rfl
    simp only [ClockStretch]
    rw [e1, h1, h2]
    exact hrun
  · rw [htr]
    simp [millis, emit]

/-- Witness for C15: SCL held low while the clock reads 0 at the entry and
5000 from then on. -/
theorem ClockStretch_times_out_on_stuck_bus_witness :
    ∃ s' pre r1 r2, ClockStretch lateBus 3 idleState = (some true, s') ∧
      s'.trace = idleState.trace
        ++ [Event.millis (lateBus.clock idleState.clockReads % 2 ^ 32)] ++ pre
        ++ [Event.digitalRead Pin._scl Level.LOW, Event.millis r1, Event.millis r2,
          Event.ClockStretch true] ∧
      lateBus.clock idleState.clockReads % 2 ^ 32 + 3002 ≤ r2 ∧
      ∀ x, Event.millis x ∈ pre → x < lateBus.clock idleState.clockReads % 2 ^ 32 + 3002 :=
  ClockStretch_times_out_on_stuck_bus lateBus idleState 1 3 (by decide)
    (fun i j _ hij => by
      by_cases hi : i = 0 <;> by_cases hj : j = 0 <;> simp [lateBus, hi, hj]
      omega)
    (by decide) (fun _ => rfl) (by decide)

theorem ClockStretch_loop_policy (env : Platform) (T1 T2 : Nat) :
    ∀ (fuel : Nat) (s : State),
      ∃ t, (ClockStretch_loop env T1 T2 fuel s).2.trace = s.trace ++ t ∧
        StretchTrace T1 T2 (ClockStretch_loop env T1 T2 fuel s).1 t := by
  intro fuel
  induction fuel with
  | zero => intro s; exact ⟨[], by simp [ClockStretch_loop], StretchTrace.out⟩
  | succ fuel ih =>
    intro s
    rw [ClockStretch_loop]
    simp only [digitalRead, millis, emit]
    cases hl : env.scl s.sclReads with
    | HIGH => exact ⟨_, by simp, StretchTrace.released⟩
    | LOW =>
      simp only
      by_cases hb : T1 > env.clock s.clockReads % 2 ^ 32
      · rw [if_pos hb]
        obtain ⟨t, ht, hrun⟩ := ih
          { s with sclReads := s.sclReads + 1,
                   clockReads := s.clockReads + 1,
                   trace := s.trace ++ [Event.digitalRead Pin._scl Level.LOW]
                     ++ [Event.millis (env.clock s.clockReads % 2 ^ 32)] }
        exact ⟨[Event.digitalRead Pin._scl Level.LOW,
          Event.millis (env.clock s.clockReads % 2 ^ 32)] ++ t, by rw [ht]; simp,
          StretchTrace.busy _ hb _ _ hrun⟩
      · rw [if_neg hb]
        by_cases hd : T2 > env.clock (s.clockReads + 1) % 2 ^ 32
        · rw [if_pos hd]
          obtain ⟨t, ht, hrun⟩ := ih
            (delay 1 { s with sclReads := s.sclReads + 1,
                              clockReads := s.clockReads + 1 + 1,
                              trace := s.trace ++ [Event.digitalRead Pin._scl Level.LOW]
                                ++ [Event.millis (env.clock s.clockReads % 2 ^ 32)]
                                ++ [Event.millis (env.clock (s.clockReads + 1) % 2 ^ 32)] })
          exact ⟨[Event.digitalRead Pin._scl Level.LOW,
            Event.millis (env.clock s.clockReads % 2 ^ 32),
            Event.millis (env.clock (s.clockReads + 1) % 2 ^ 32), Event.delay 1] ++ t,
            by rw [ht]; simp [delay, emit],
            StretchTrace.yield _ _ (by omega) hd _ _ hrun⟩
        · rw [if_neg hd]
          exact ⟨[Event.digitalRead Pin._scl Level.LOW,
            Event.millis (env.clock s.clockReads % 2 ^ 32),
            Event.millis (env.clock (s.clockReads + 1) % 2 ^ 32), Event.ClockStretch true],
            by simp, StretchTrace.timeout _ _ (by omega) (by omega)⟩

theorem StretchTrace.no_pinMode {T1 T2 : Nat} {r : Option Bool} {t : List Event}
    (h : StretchTrace T1 T2 r t) : ∀ e ∈ t, ∀ p m, e ≠ Event.pinMode p m := by
  induction h with
  | out => intro e he; simp at he
  | released => intro e he p m hc; subst hc; simp at he
  | timeout r1 r2 h1 h2 => intro e he p m hc; subst hc; simp at he
  | busy r1 h1 r t h ih =>
    intro e he p m hc
    subst hc
    simp only [List.mem_append, List.mem_cons, List.mem_singleton, List.not_mem_nil,
      or_false, reduceCtorEq, false_or] at he
    exact ih _ he p m rfl
  | yield r1 r2 h1 h2 r t h ih =>
    intro e he p m hc
    subst hc
    simp only [List.mem_append, List.mem_cons, List.mem_singleton, List.not_mem_nil,
      or_false, reduceCtorEq, false_or] at he
    exact ih _ he p m rfl

/-- C16: the tiered wait of `ClockStretch`.  With the entry reading `t0` and no
overflow (`t0 + 3002 < 2^32`) the deadlines are `T1 = t0 + 2` and
`T2 = T1 + 3000`, and the trace added after the entry reading is a
`StretchTrace T1 T2`: the call returns 0 at the first poll at which SCL reads
high, whatever the clock; a pass in which SCL reads low calls no delay when its
clock reading is below `T1`, calls `delay(1)` once when that reading is at
least `T1` and the next is below `T2`, and returns 1 when the next is at least
`T2`.  No pin mode is changed and the tracked line states are kept. -/
theorem ClockStretch_tiered_wait (env : Platform) (fuel : Nat) (s : State)
    (hw : env.clock s.clockReads % 2 ^ 32 + 3002 < 2 ^ 32) :
    ∃ t, (ClockStretch env fuel s).2.trace
        = s.trace ++ Event.millis (env.clock s.clockReads % 2 ^ 32) :: t ∧
      StretchTrace (env.clock s.clockReads % 2 ^ 32 + 2)
        (env.clock s.clockReads % 2 ^ 32 + 2 + 3000) (ClockStretch env fuel s).1 t ∧
      (∀ e ∈ t, ∀ p m, e ≠ Event.pinMode p m) ∧
      (ClockStretch env fuel s).2._sda_set = s._sda_set ∧
      (ClockStretch env fuel s).2._scl_set = s._scl_set := by
  have h1 : (2 + env.clock s.clockReads % 2 ^ 32) % 2 ^ 32
      = env.clock s.clockReads % 2 ^ 32 + 2 := by
    rw [Nat.mod_eq_of_lt (by omega)]; omega
  have h2 : (3000 + (env.clock s.clockReads % 2 ^ 32 + 2)) % 2 ^ 32
      = env.clock s.clockReads % 2 ^ 32 + 2 + 3000 := by
    rw [Nat.mod_eq_of_lt (by omega)]; omega
  have e1 : (millis env s).1 = env.clock s.clockReads % 2 ^ 32 := rfl
  have hdef : ClockStretch env fuel s
      = ClockStretch_loop env (env.clock s.clockReads % 2 ^ 32 + 2)
          (env.clock s.clockReads % 2 ^ 32 + 2 + 3000) fuel (millis env s).2 := by
    simp only [ClockStretch]
    rw [e1, h1, h2]
  obtain ⟨t, ht, hrun⟩ := ClockStretch_loop_policy env (env.clock s.clockReads % 2 ^ 32 + 2)
    (env.clock s.clockReads % 2 ^ 32 + 2 + 3000) fuel (millis env s).2
  obtain ⟨hsda, hscl, -, -⟩ := ClockStretch_run env fuel s _ _ rfl
  rw [← hdef] at ht hrun
  have ht' : (ClockStretch env fuel s).2.trace
      = s.trace ++ Event.millis (env.clock s.clockReads % 2 ^ 32) :: t := by
    rw [ht]; simp [millis, emit]
  exact ⟨t, ht', hrun, hrun.no_pinMode, hsda, hscl⟩

/-- Witness for C16: the first `ClockStretch` on a bus that holds SCL low. -/
theorem ClockStretch_tiered_wait_witness :
    ∃ t, (ClockStretch lateBus 3 idleState).2.trace
        = idleState.trace ++ Event.millis (lateBus.clock idleState.clockReads % 2 ^ 32) :: t ∧
      StretchTrace (lateBus.clock idleState.clockReads % 2 ^ 32 + 2)
        (lateBus.clock idleState.clockReads % 2 ^ 32 + 2 + 3000)
        (ClockStretch lateBus 3 idleState).1 t ∧
      (∀ e ∈ t, ∀ p m, e ≠ Event.pinMode p m) ∧
      (ClockStretch lateBus 3 idleState).2._sda_set = idleState._sda_set ∧
      (ClockStretch lateBus 3 idleState).2._scl_set = idleState._scl_set :=
  ClockStretch_tiered_wait lateBus 3 idleState (by decide)

/-- C18 (the code at the failing input): entered with the clock at 0 and SCL
held low, `ClockStretch` reads the clock at 2, two milliseconds after its
entry, and calls `delay(1)` in that very pass, before the third millisecond
the comment above it promises to spend without delay. -/
theorem ClockStretch_delays_after_two_ms :
    ClockStretch twoMsBus 1 idleState
      = (none,
          { idleState with
            sclReads := 1, clockReads := 3,
            trace := [Event.millis 0, Event.digitalRead Pin._scl Level.LOW,
              Event.millis 2, Event.millis 2, Event.delay 1] }) := by
  decide


/-! ## The start condition after a timeout (C17) -/

set_option maxRecDepth 100000 in
/-- C17 (the code at the failing input): an `i2c_start(0x40)` on an idle bus
times out on its first address bit and leaves SDA tracked low with SCL tracked
released.  The `i2c_start(0x40)` made next, which runs to the acknowledge,
changes SDA only while SCL is commanded low: its first line change is SCL
driven low with SDA already low, and no fall of SDA while SCL is released, no
START, comes before the address byte. -/
theorem i2c_start_after_timeout_makes_no_start :
    (i2c_start glitchBus 9 0x40 idleState).1 = some false ∧
    afterTimeout._sda_set = Level.LOW ∧ afterTimeout._scl_set = Level.HIGH ∧
    (i2c_start glitchBus 9 0x40 afterTimeout).1 = some true ∧
    ∃ t, (i2c_start glitchBus 9 0x40 afterTimeout).2.trace = afterTimeout.trace ++ t ∧
      sdaEdges afterTimeout.lines t = [] ∧
      (lineChanges afterTimeout.lines t).head?
        = some (({ sda := Level.LOW, scl := Level.HIGH } : Lines),
            ({ sda := Level.LOW, scl := Level.LOW } : Lines)) :=
  ⟨by decide, by decide, by decide, by decide,
    List.drop afterTimeout.trace.length (i2c_start glitchBus 9 0x40 afterTimeout).2.trace,
    by decide, by decide, by decide⟩

/-! ## The recovery sequence of `i2c_init` (C19, C20) -/

theorem pulseTrace_eq_replicate (d : Nat) :
    pulseTrace d 28
      = (List.replicate 28 [Event.pinMode Pin._scl Mode.OUTPUT, Event.delayMicroseconds d,
          Event.pinMode Pin._scl Mode.INPUT, Event.delayMicroseconds d]).flatten := by
  rfl

/-- C19: for every prior state, `i2c_init` (with fuel for its loop) drives both
lines low and writes `LOW` to both pins, releases SDA and waits, then makes
exactly 28 pulses of SCL (SCL driven low, delay `DELAY`, SCL released, delay
`DELAY`) during which SDA stays commanded released, and only then the stop
condition; up to there it reads no pin and no clock and does not enter
`ClockStretch`; the trace ends with the one or two level reads. -/
theorem i2c_init_recovery_sequence (env : Platform) (fuel : Nat) (s : State) :
    ∃ reads, (i2c_init env (fuel + 29) s).2.trace
        = s.trace
          ++ [Event.pinMode Pin._scl Mode.OUTPUT, Event.pinMode Pin._sda Mode.OUTPUT,
            Event.digitalWrite Pin._scl Level.LOW, Event.digitalWrite Pin._sda Level.LOW,
            Event.pinMode Pin._sda Mode.INPUT, Event.delayMicroseconds env.DELAY]
          ++ (List.replicate 28 [Event.pinMode Pin._scl Mode.OUTPUT,
            Event.delayMicroseconds env.DELAY, Event.pinMode Pin._scl Mode.INPUT,
            Event.delayMicroseconds env.DELAY]).flatten
          ++ [Event.pinMode Pin._scl Mode.OUTPUT, Event.delayMicroseconds env.DELAY,
            Event.pinMode Pin._sda Mode.OUTPUT, Event.delayMicroseconds env.DELAY,
            Event.pinMode Pin._scl Mode.INPUT, Event.delayMicroseconds env.DELAY,
            Event.pinMode Pin._sda Mode.INPUT, Event.delayMicroseconds (env.DELAY * 2)]
          ++ reads ∧
      (reads = [Event.digitalRead Pin._sda Level.LOW] ∨
        ∃ v, reads = [Event.digitalRead Pin._sda Level.HIGH, Event.digitalRead Pin._scl v]) ∧
      (linesAfter s.lines [Event.pinMode Pin._scl Mode.OUTPUT,
        Event.pinMode Pin._sda Mode.OUTPUT, Event.digitalWrite Pin._scl Level.LOW,
        Event.digitalWrite Pin._sda Level.LOW, Event.pinMode Pin._sda Mode.INPUT,
        Event.delayMicroseconds env.DELAY]).sda = Level.HIGH := by
  rw [i2c_init_eq, initTrace, pulseTrace_eq_replicate]
  simp only [digitalRead, emit]
  cases ha : env.sda s.sdaReads
  · exact ⟨[Event.digitalRead Pin._sda Level.LOW], by simp, Or.inl rfl, rfl⟩
  · cases hb : env.scl s.sclReads
    · exact ⟨[Event.digitalRead Pin._sda Level.HIGH, Event.digitalRead Pin._scl Level.LOW],
        by simp [ha, hb], Or.inr ⟨_, rfl⟩, rfl⟩
    · exact ⟨[Event.digitalRead Pin._sda Level.HIGH, Event.digitalRead Pin._scl Level.HIGH],
        by simp [ha, hb], Or.inr ⟨_, rfl⟩, rfl⟩

/-- C20: `i2c_init` does not depend on the tracked line states at its entry.
From two states that differ only in `_sda_set` and `_scl_set`, with the same
bus and fuel, it returns the same value and ends in the same state, trace of
calls and tracked line states included; and with fuel for its loop both lines
end tracked released. -/
theorem i2c_init_ignores_tracked_state (env : Platform) (fuel : Nat) (s : State)
    (a b a' b' : Level) :
    i2c_init env fuel { s with _sda_set := a, _scl_set := b }
        = i2c_init env fuel { s with _sda_set := a', _scl_set := b' } ∧
      (i2c_init env (fuel + 29) { s with _sda_set := a, _scl_set := b }).2._sda_set
        = Level.HIGH ∧
      (i2c_init env (fuel + 29) { s with _sda_set := a, _scl_set := b }).2._scl_set
        = Level.HIGH :=
  ⟨rfl, i2c_init_tracked env fuel _⟩

end SlowSoftI2CMaster
